import Mathlib

/-! PkMatToGDI : drawing a cv::Mat on a window control

A shallow embedding of `MatToCstatic.h` (class `PkMatToGDI` and the free
function `CvMatToWinControl`) together with theorems about the destination
rectangle, the row padding, the choice of the GDI transfer primitive, the
background clear, the stretch mode and the behaviour on failure.

Modelling conventions

* C `int` / `LONG` values are `Int`.  The dimensions of controls and images
  are C ints: where a theorem depends on it they are taken at most `INT_MAX`,
  and no operation on them wraps around in that range.
* `cv::Mat` is reduced to its shape: `rows`, `cols` (never negative for a
  2-D matrix, hence `Nat`), `elemSize()` and `isContinuous()`.
* A `double` is a binary64 value (type `Double`): a rational, `+inf`, `-inf`
  or `NaN`.  Every conversion, product and quotient is rounded to the nearest
  binary64 value, ties to even (`Double.round`), with overflow to infinity
  and gradual underflow.  The sign of zero is not kept.
* The GDI device context is an output: every GDI call made by a function is
  recorded, in order, in a list of `GdiCall`.  The number of scan lines
  reported by the transfer primitive (`SetDIBitsToDevice` or
  `StretchDIBits`, at most one of them is called) is the input `numLines`.
* `assert` aborts the program when the condition fails: functions
  containing one return an `Option`, `none` being the abort.
-/

namespace PkMat

/-! ## Data model -/

/-- Windows `RECT`: the four edges of a rectangle. -/
structure RECT where
  left : Int
  top : Int
  right : Int
  bottom : Int
deriving DecidableEq, Repr

/-- The `cv::Rect` of OpenCV: origin and extent. -/
structure Rect where
  x : Int
  y : Int
  width : Int
  height : Int
deriving DecidableEq, Repr

/-- The `cv::Size` of OpenCV. -/
structure Size where
  width : Int
  height : Int
deriving DecidableEq, Repr

/-- Extent of a rectangle, `cv::Rect::size()`. -/
def Rect.size (r : Rect) : Size := ⟨r.width, r.height⟩

/-- Shape of a `cv::Mat`: rows, columns, bytes per pixel and continuity. -/
structure Mat where
  rows : Nat
  cols : Nat
  elemSize : Nat
  isContinuous : Bool
deriving DecidableEq, Repr

/-- Emptiness test `cv::Mat::empty()`: no rows or no columns. -/
def Mat.empty (m : Mat) : Bool := m.rows == 0 || m.cols == 0

/-- Extent of a matrix, `cv::Mat::size()`, as (width = cols, height = rows). -/
def Mat.size (m : Mat) : Size := ⟨m.cols, m.rows⟩

/-- Shape produced by `cv::copyMakeBorder(src, dst, top, bottom, left, right, ...)`:
the source grown by the four borders, in a freshly laid out continuous block. -/
def copyMakeBorder (src : Mat) (top bottom left right : Nat) : Mat :=
  ⟨src.rows + top + bottom, src.cols + left + right, src.elemSize, true⟩

/-- A window control (`CWnd`, `CStatic`): its handle and the rectangle that
`GetClientRect` reports for it. -/
structure CWnd where
  hWnd : Nat
  clientRect : RECT
deriving DecidableEq, Repr

/-- The fields of `BITMAPINFOHEADER` that vary from draw to draw. -/
structure BITMAPINFOHEADER where
  biWidth : Int
  biHeight : Int
  biBitCount : Int
deriving DecidableEq, Repr

/-- Stretch modes passed to `SetStretchBltMode`. -/
inductive StretchMode where
  | HALFTONE
  | COLORONCOLOR
deriving DecidableEq, Repr

/-- One call to a GDI primitive, with the arguments this development looks at. -/
inductive GdiCall where
  | SetDIBitsToDevice (xDest yDest w h xSrc ySrc startScan cLines : Int)
      (bmih : BITMAPINFOHEADER)
  | StretchDIBits (xDest yDest destW destH xSrc ySrc srcW srcH : Int)
      (bmih : BITMAPINFOHEADER)
  | SetStretchBltMode (mode : StretchMode)
  | Rectangle (left top right bottom : Int)
deriving DecidableEq, Repr

/-- Rounding of a rational to the nearest integer, ties to the even one. -/
def roundHalfEven (m : ℚ) : Int :=
  if m - ⌊m⌋ < 1 / 2 then ⌊m⌋
  else if 1 / 2 < m - ⌊m⌋ then ⌊m⌋ + 1
  else if ⌊m⌋ % 2 = 0 then ⌊m⌋
  else ⌊m⌋ + 1

/-- The binary64 value nearest to `x`, ties to even, before the overflow test:
53 significant bits, the least exponent of a mantissa unit being -1074. -/
def roundQ (x : ℚ) : ℚ :=
  let p : Int := max (Int.log 2 |x| - 52) (-1074)
  let y : ℚ := (roundHalfEven (|x| / 2 ^ p) : ℚ) * 2 ^ p
  if 0 ≤ x then y else -y

/-- A `double`: a finite binary64 value, an infinity or NaN. -/
inductive Double where
  | fin (q : ℚ)
  | posInf
  | negInf
  | nan
deriving DecidableEq, Repr

/-- Rounding of an exact result to binary64: to the nearest value, ties to even,
and to an infinity from 2^1024 on. -/
def Double.round (x : ℚ) : Double :=
  if 2 ^ 1024 ≤ roundQ x then .posInf
  else if roundQ x ≤ -2 ^ 1024 then .negInf
  else .fin (roundQ x)

/-- Conversion of a C int to `double`. -/
def Double.ofInt (n : Int) : Double := Double.round n

/-- The product of two doubles. -/
def Double.mul : Double → Double → Double
  | .fin a, .fin b => Double.round (a * b)
  | .nan, _ => .nan
  | _, .nan => .nan
  | .fin a, .posInf => if 0 < a then .posInf else if a < 0 then .negInf else .nan
  | .fin a, .negInf => if 0 < a then .negInf else if a < 0 then .posInf else .nan
  | .posInf, .fin b => if 0 < b then .posInf else if b < 0 then .negInf else .nan
  | .negInf, .fin b => if 0 < b then .negInf else if b < 0 then .posInf else .nan
  | .posInf, .posInf => .posInf
  | .posInf, .negInf => .negInf
  | .negInf, .posInf => .negInf
  | .negInf, .negInf => .posInf

/-- The quotient of two doubles, with the IEEE results for a zero divisor
(a zero is taken as positive). -/
def Double.div : Double → Double → Double
  | .fin a, .fin b =>
    if b ≠ 0 then Double.round (a / b)
    else if 0 < a then .posInf
    else if a < 0 then .negInf
    else .nan
  | .nan, _ => .nan
  | _, .nan => .nan
  | .fin _, .posInf => .fin 0
  | .fin _, .negInf => .fin 0
  | .posInf, .fin b => if 0 ≤ b then .posInf else .negInf
  | .negInf, .fin b => if 0 ≤ b then .negInf else .posInf
  | .posInf, .posInf => .nan
  | .posInf, .negInf => .nan
  | .negInf, .posInf => .nan
  | .negInf, .negInf => .nan

/-- The comparison `a > b` of two doubles; false as soon as one is NaN. -/
def Double.gt : Double → Double → Bool
  | .nan, _ => false
  | _, .nan => false
  | .fin a, .fin b => decide (b < a)
  | .posInf, .posInf => false
  | .posInf, _ => true
  | .fin _, .negInf => true
  | _, _ => false

/-- The conversion `(int)floor(d)`.  It is undefined for a non-finite `d`; the
callers below only reach it with a finite one (the divisor is a dimension of a
non-empty image, or the constant 2). -/
def Double.floorInt : Double → Int
  | .fin q => ⌊q⌋
  | _ => 0

/-- The members of `class PkMatToGDI`.  `m_WinCtrl` is a pointer: `none` is
`NULL`.  Of the two bitmap headers only the header fields are kept (the grey
palette is written once by `Init` and never read by the code modelled here). -/
structure PkMatToGDI where
  m_autofit : Bool
  m_internalImg : Mat
  m_WinCtrl : Option CWnd
  m_ctrlRectWin : RECT
  m_ctrlRectCv : Rect
  m_ctrlRectRatio : Double
  m_destRectCv : Rect
  m_bmiColor : BITMAPINFOHEADER
  m_bmiGrey : BITMAPINFOHEADER
deriving DecidableEq, Repr

/-- What a call of `DrawImg` that returns leaves behind: the returned flag, the
members afterwards and the GDI calls made, in order. -/
structure DrawResult where
  ret : Bool
  state : PkMatToGDI
  calls : List GdiCall
deriving DecidableEq, Repr

/-! ## Operations of the class -/

/-- The private `Init(ctrl, autofit)` (source lines 264-315). -/
def Init (s : PkMatToGDI) (ctrl : Option CWnd) (autofit : Bool) : Bool × PkMatToGDI :=
  let s1 := { s with m_WinCtrl := ctrl }
  match ctrl with
  | none => (false, s1)
  | some c =>
    let rw := c.clientRect
    let rcv : Rect := ⟨rw.left, rw.top, rw.right - rw.left, rw.bottom - rw.top⟩
    (true,
      { s1 with
        m_autofit := autofit
        m_ctrlRectWin := rw
        m_ctrlRectCv := rcv
        m_ctrlRectRatio :=
          Double.div (Double.mul (.fin 1) (Double.ofInt rcv.width)) (Double.ofInt rcv.height)
        m_destRectCv := rcv
        m_bmiColor := ⟨0, 0, 0⟩
        m_bmiGrey := ⟨0, 0, 8⟩ })

/-- The overload `SetDestination(ctrl, autofit)` (source lines 81-84). -/
def SetDestination (s : PkMatToGDI) (ctrl : Option CWnd) (autofit : Bool) :
    Bool × PkMatToGDI :=
  Init s ctrl autofit

/-- The overload `SetDestination(ctrl)`, keeping the fit mode (source lines 89-92). -/
def SetDestinationCtrl (s : PkMatToGDI) (ctrl : Option CWnd) : Bool × PkMatToGDI :=
  Init s ctrl s.m_autofit

/-- The setter `SetAutofit(autofit)` (source lines 100-103). -/
def SetAutofit (s : PkMatToGDI) (autofit : Bool) : PkMatToGDI :=
  { s with m_autofit := autofit }

/-- The call `BackgroundClear()` (source lines 255-261): one `Rectangle` over the
client rectangle of the control. -/
def BackgroundClear (s : PkMatToGDI) : GdiCall :=
  .Rectangle s.m_ctrlRectWin.left s.m_ctrlRectWin.top s.m_ctrlRectWin.right
    s.m_ctrlRectWin.bottom

/-- The local `rr` of `DrawImg` (source lines 126-152): the rectangle wanted for
an image of `img_w` columns and `img_h` rows. -/
def DrawImg_rr (s : PkMatToGDI) (img_w img_h : Int) : Rect :=
  if s.m_autofit then
    if Double.gt s.m_ctrlRectRatio
        (Double.div (Double.mul (.fin 1) (Double.ofInt img_w)) (Double.ofInt img_h)) then
      -- fit height, align center
      let height := s.m_ctrlRectCv.height
      let width := Double.floorInt
        (Double.div
          (Double.mul (Double.mul (.fin 1) (Double.ofInt img_w))
            (Double.ofInt s.m_ctrlRectCv.height))
          (Double.ofInt img_h))
      let x := Double.floorInt
        (Double.div (Double.ofInt (s.m_ctrlRectCv.width - width)) (.fin 2))
      ⟨x, s.m_ctrlRectCv.y, width, height⟩
    else
      -- fit width, align middle (the division by 2 is the integer one)
      let width := s.m_ctrlRectCv.width
      let height := Double.floorInt
        (Double.div
          (Double.mul (Double.mul (.fin 1) (Double.ofInt img_h))
            (Double.ofInt s.m_ctrlRectCv.width))
          (Double.ofInt img_w))
      let y := Int.tdiv (s.m_ctrlRectCv.height - height) 2
      ⟨s.m_ctrlRectCv.x, y, width, height⟩
  else
    -- stretch
    s.m_ctrlRectCv

/-- The local `padding` of `DrawImg` (source lines 157-164). -/
def DrawImg_padding (bpp : Int) (cols : Nat) : Int :=
  if bpp = 32 then 0
  else if cols % 4 > 0 then 4 - ((cols % 4 : Nat) : Int)
  else 0

/-- The local `tempimg` of `DrawImg` (source lines 166-180): the image itself, or
the padded continuous copy made in `m_internalImg`. -/
def DrawImg_tempimg (img : Mat) (padding : Int) : Mat :=
  if padding > 0 ∨ img.isContinuous = false then
    copyMakeBorder img 0 0 0 padding.toNat
  else img

/-- The members once `DrawImg` has prepared the working image and the bitmap
header (source lines 166-198): `m_internalImg` receives the padded copy when one
is made, and the header selected by the bit depth gets the shape of `tempimg`. -/
def DrawImg_prepare (s : PkMatToGDI) (img : Mat) (bpp padding : Int) : PkMatToGDI :=
  let tempimg := DrawImg_tempimg img padding
  let internalImg :=
    if padding > 0 ∨ img.isContinuous = false then tempimg else s.m_internalImg
  let bmih : BITMAPINFOHEADER := ⟨tempimg.cols, -(tempimg.rows : Int), bpp⟩
  if bpp = 8 then { s with m_internalImg := internalImg, m_bmiGrey := bmih }
  else { s with m_internalImg := internalImg, m_bmiColor := bmih }

/-- The same-size branch of `DrawImg` (source lines 204-217): the memory block is
transferred by `SetDIBitsToDevice` over the rectangle of the control. -/
def DrawImg_direct (s1 : PkMatToGDI) (tempimg : Mat) (bmih : BITMAPINFOHEADER)
    (numLines : Int) : DrawResult :=
  let call := GdiCall.SetDIBitsToDevice s1.m_ctrlRectCv.x s1.m_ctrlRectCv.y
    s1.m_ctrlRectCv.width s1.m_ctrlRectCv.height 0 0 0 tempimg.rows bmih
  if numLines = 0 then
    ⟨false, s1, [call]⟩
  else
    ⟨true, { s1 with m_destRectCv := s1.m_ctrlRectCv }, [call]⟩

/-- The if / else-if chain of `DrawImg` (source lines 219-238): the new value of
`m_destRectCv` and the GDI calls made by the branch taken. -/
def DrawImg_chain (s1 : PkMatToGDI) (rr : Rect) (img_w : Int) : Rect × List GdiCall :=
  if s1.m_destRectCv.width ≤ 0 then
    (rr, [])
  else if rr ≠ s1.m_destRectCv then
    (rr, [BackgroundClear s1])
  else if s1.m_destRectCv.width < img_w then
    (s1.m_destRectCv, [GdiCall.SetStretchBltMode .HALFTONE])
  else
    (s1.m_destRectCv, [GdiCall.SetStretchBltMode .COLORONCOLOR])

/-- The other branch of `DrawImg` (source lines 219-249): the chain above, then
`StretchDIBits` from the whole unpadded image into `m_destRectCv`. -/
def DrawImg_stretch (s1 : PkMatToGDI) (rr : Rect) (img_w img_h : Int)
    (bmih : BITMAPINFOHEADER) (numLines : Int) : DrawResult :=
  let chain := DrawImg_chain s1 rr img_w
  let s2 := { s1 with m_destRectCv := chain.1 }
  let call := GdiCall.StretchDIBits s2.m_destRectCv.x s2.m_destRectCv.y
    s2.m_destRectCv.width s2.m_destRectCv.height 0 0 img_w img_h bmih
  if numLines = 0 then
    ⟨false, s2, chain.2 ++ [call]⟩
  else
    ⟨true, s2, chain.2 ++ [call]⟩

/-- The method `DrawImg(img)` (source lines 107-250).  `numLines` is what the
transfer primitive called reports. -/
def DrawImg (s : PkMatToGDI) (img : Mat) (numLines : Int) : Option DrawResult :=
  if s.m_WinCtrl = none ∨ img.empty = true then
    some ⟨false, s, []⟩
  else
    let bpp : Int := 8 * (img.elemSize : Int)
    if bpp = 8 ∨ bpp = 24 ∨ bpp = 32 then
      let img_w : Int := img.cols
      let img_h : Int := img.rows
      let rr := DrawImg_rr s img_w img_h
      let padding := DrawImg_padding bpp img.cols
      let tempimg := DrawImg_tempimg img padding
      let s1 := DrawImg_prepare s img bpp padding
      let bmih : BITMAPINFOHEADER := ⟨tempimg.cols, -(tempimg.rows : Int), bpp⟩
      if tempimg.size = s1.m_ctrlRectCv.size then
        some (DrawImg_direct s1 tempimg bmih numLines)
      else
        some (DrawImg_stretch s1 rr img_w img_h bmih numLines)
    else
      -- the assertion on the bit depth fails
      none

/-! ## The free function -/

/-- The local `border` of `CvMatToWinControl` (source lines 371-376). -/
def CvMatToWinControl_border (bpp : Int) (cols : Nat) : Int :=
  if bpp < 32 then 4 - ((cols % 4 : Nat) : Int) else 0

/-- The free function `CvMatToWinControl(img, WinCtrl)` (source lines 348-451).
It returns nothing: the result is the list of GDI calls made. -/
def CvMatToWinControl (img : Mat) (WinCtrl : Option CWnd) : Option (List GdiCall) :=
  match WinCtrl with
  | none => some []
  | some c =>
    if img.empty = true then some []
    else
      let bpp : Int := 8 * (img.elemSize : Int)
      if bpp = 8 ∨ bpp = 24 ∨ bpp = 32 then
        let rr := c.clientRect
        let rectWidth := rr.right
        let rectHeight := rr.bottom
        let border := CvMatToWinControl_border bpp img.cols
        let tmpImg :=
          if border > 0 ∨ img.isContinuous = false then
            copyMakeBorder img 0 0 0 border.toNat
          else img
        let bmih : BITMAPINFOHEADER := ⟨tmpImg.cols, -(tmpImg.rows : Int), bpp⟩
        if (tmpImg.cols : Int) = rectWidth ∧ (tmpImg.rows : Int) = rectHeight then
          some [GdiCall.SetDIBitsToDevice 0 0 rectWidth rectHeight 0 0 0 tmpImg.rows bmih]
        else
          let imgWidth : Int := (tmpImg.cols : Int) - border
          let imgHeight : Int := tmpImg.rows
          some [GdiCall.StretchDIBits 0 0 rectWidth rectHeight 0 0 imgWidth imgHeight bmih]
      else
        -- the assertion on the bit depth fails
        none

/-! ## Concrete presenters, controls and images used in the examples -/

/-- A presenter built without a control: `PkMatToGDI()` runs `Init(NULL, true)`,
which only writes `m_WinCtrl`; the other members are given zero values here. -/
def unboundPresenter : PkMatToGDI :=
  ⟨true, ⟨0, 0, 0, true⟩, none, ⟨0, 0, 0, 0⟩, ⟨0, 0, 0, 0⟩, .nan, ⟨0, 0, 0, 0⟩,
    ⟨0, 0, 0⟩, ⟨0, 0, 0⟩⟩

/-- A control with a client area of 800 x 400. -/
def ctrl800x400 : CWnd := ⟨1, ⟨0, 0, 800, 400⟩⟩

/-- A control with a client area of 640 x 480. -/
def ctrl640x480 : CWnd := ⟨2, ⟨0, 0, 640, 480⟩⟩

/-- A control whose client area is 0 wide and 5 high. -/
def ctrl0x5 : CWnd := ⟨3, ⟨0, 0, 0, 5⟩⟩

/-- The presenter bound to the 0 x 5 control in autofit mode. -/
def autofit0x5 : PkMatToGDI := (Init unboundPresenter (some ctrl0x5) true).2

/-- The presenter bound to the 800 x 400 control in autofit mode. -/
def autofit800x400 : PkMatToGDI := (Init unboundPresenter (some ctrl800x400) true).2

/-- The presenter bound to the 800 x 400 control in stretch mode. -/
def stretch800x400 : PkMatToGDI := (Init unboundPresenter (some ctrl800x400) false).2

/-- The presenter bound to the 640 x 480 control in stretch mode. -/
def stretch640x480 : PkMatToGDI := (Init unboundPresenter (some ctrl640x480) false).2

/-- A control with a client area of 1073741825 x 2147483647. -/
def ctrlHuge : CWnd := ⟨4, ⟨0, 0, 1073741825, 2147483647⟩⟩

/-- The presenter bound to that control in autofit mode. -/
def autofitHuge : PkMatToGDI := (Init unboundPresenter (some ctrlHuge) true).2

/-- An image shape of 2147483647 columns and 2147483645 rows. -/
def imgHuge : Mat := ⟨2147483645, 2147483647, 4, true⟩

/-- A continuous RGBA image (depth 32) of 640 columns and 480 rows. -/
def img640x480x32 : Mat := ⟨480, 640, 4, true⟩

/-- A continuous RGB image (depth 24) of 640 columns and 480 rows. -/
def img640x480x24 : Mat := ⟨480, 640, 3, true⟩

/-- A continuous RGB image (depth 24) of 798 columns and 400 rows. -/
def img798x400x24 : Mat := ⟨400, 798, 3, true⟩

/-! ## Reachable states and auxiliary notions -/

/-- The pixel sizes `DrawImg` accepts: 1, 3 or 4 bytes (bit depth 8, 24, 32). -/
def validDepth (img : Mat) : Prop :=
  img.elemSize = 1 ∨ img.elemSize = 3 ∨ img.elemSize = 4

instance (img : Mat) : Decidable (validDepth img) := by
  unfold validDepth
  infer_instance

/-- A rectangle lies inside the surface rectangle with origin (0,0), width `W`
and height `H`. -/
def Rect.inside (r : Rect) (W H : Int) : Prop :=
  0 ≤ r.x ∧ 0 ≤ r.y ∧ r.x + r.width ≤ W ∧ r.y + r.height ≤ H

/-- The largest C int. -/
def INT_MAX : Int := 2147483647

/-- States of a presenter reachable from a successful bind to a control whose
client rectangle has origin (0,0), width `W` and height `H`, by calls of
`SetAutofit` and returning calls of `DrawImg` on non-empty images.  The
dimensions of the control and of the images are C ints. -/
inductive Reachable (W H : Int) : PkMatToGDI → Prop where
  | bind (s0 : PkMatToGDI) (c : CWnd) (autofit : Bool) :
      c.clientRect = ⟨0, 0, W, H⟩ → W ≤ INT_MAX → H ≤ INT_MAX →
      Reachable W H (Init s0 (some c) autofit).2
  | setAutofit (s : PkMatToGDI) (autofit : Bool) :
      Reachable W H s → Reachable W H (SetAutofit s autofit)
  | draw (s : PkMatToGDI) (img : Mat) (numLines : Int) (r : DrawResult) :
      Reachable W H s → img.empty = false →
      (img.cols : Int) ≤ INT_MAX → (img.rows : Int) ≤ INT_MAX →
      DrawImg s img numLines = some r →
      Reachable W H r.state

/-- Destination rectangles of the transfer calls in a list of GDI calls. -/
def transferRects : List GdiCall → List Rect
  | [] => []
  | .SetDIBitsToDevice x y w h _ _ _ _ _ :: cs => ⟨x, y, w, h⟩ :: transferRects cs
  | .StretchDIBits x y w h _ _ _ _ _ :: cs => ⟨x, y, w, h⟩ :: transferRects cs
  | _ :: cs => transferRects cs

theorem roundHalfEven_intCast (n : Int) : roundHalfEven (n : ℚ) = n := by
  unfold roundHalfEven
  simp

theorem roundHalfEven_err (m : ℚ) : |(roundHalfEven m : ℚ) - m| ≤ 1 / 2 := by
  have h0 := Int.floor_le m
  have h1 := Int.lt_floor_add_one m
  unfold roundHalfEven
  rw [abs_le]
  split_ifs <;> push_cast <;> constructor <;> linarith

/-- The exponent of a positive rational. -/
theorem log_spec (x : ℚ) (hx : 0 < x) :
    (2 : ℚ) ^ Int.log 2 x ≤ x ∧ x < (2 : ℚ) ^ (Int.log 2 x + 1) := by
  have h1 := Int.zpow_log_le_self (b := 2) (r := x) (by norm_num) hx
  have h2 := Int.lt_zpow_succ_log_self (b := 2) (by norm_num) x
  simp only [Nat.cast_ofNat] at h1 h2
  exact ⟨h1, h2⟩

theorem roundQ_normal (x : ℚ) (hx : (2 : ℚ) ^ (-1022 : ℤ) ≤ x) :
    roundQ x = (roundHalfEven (x / 2 ^ (Int.log 2 x - 52)) : ℚ) * 2 ^ (Int.log 2 x - 52) := by
  have hpos : (0 : ℚ) < x := lt_of_lt_of_le (by positivity) hx
  have hlog : (-1022 : ℤ) ≤ Int.log 2 x := by
    have := (Int.zpow_le_iff_le_log (b := 2) (by norm_num) hpos (x := -1022)).mp
      (by simpa using hx)
    exact this
  unfold roundQ
  rw [abs_of_pos hpos, if_pos hpos.le, max_eq_left (by omega)]

/-- Relative error of the rounding: at most 2^-53. -/
theorem roundQ_err (x : ℚ) (hx : (2 : ℚ) ^ (-1022 : ℤ) ≤ x) :
    |roundQ x - x| ≤ x / 2 ^ 53 := by
  have hpos : (0 : ℚ) < x := lt_of_lt_of_le (by positivity) hx
  obtain ⟨h1, -⟩ := log_spec x hpos
  rw [roundQ_normal x hx]
  set e := Int.log 2 x with he
  have hp : (0 : ℚ) < 2 ^ (e - 52) := by positivity
  have hm := roundHalfEven_err (x / 2 ^ (e - 52))
  have hx' : x = x / 2 ^ (e - 52) * 2 ^ (e - 52) := by field_simp
  have key : (roundHalfEven (x / 2 ^ (e - 52)) : ℚ) * 2 ^ (e - 52) - x
      = ((roundHalfEven (x / 2 ^ (e - 52)) : ℚ) - x / 2 ^ (e - 52)) * 2 ^ (e - 52) := by
    rw [sub_mul, ← hx']
  rw [key, abs_mul, abs_of_pos hp]
  have h2 : (2 : ℚ) ^ (e - 52) = 2 ^ e / 2 ^ 52 := by
    rw [zpow_sub₀ (by norm_num)]
    norm_num
  calc |(roundHalfEven (x / 2 ^ (e - 52)) : ℚ) - x / 2 ^ (e - 52)| * 2 ^ (e - 52)
      ≤ 1 / 2 * 2 ^ (e - 52) := by gcongr
    _ = 2 ^ e / 2 ^ 53 := by rw [h2]; ring
    _ ≤ x / 2 ^ 53 := by gcongr

/-- Exactness of the rounding on `N * 2^k` with `0 < N < 2^53`. -/
theorem roundQ_exact (N k : Int) (hN : 0 < N) (hN2 : N < 2 ^ 53) (hk : -1022 ≤ k) :
    roundQ ((N : ℚ) * 2 ^ k) = (N : ℚ) * 2 ^ k := by
  have hNq : (1 : ℚ) ≤ N := by exact_mod_cast hN
  have hN2q : (N : ℚ) < 2 ^ (53 : ℤ) := by exact_mod_cast hN2
  have hk2 : (0 : ℚ) < 2 ^ k := by positivity
  have hx : (2 : ℚ) ^ (-1022 : ℤ) ≤ (N : ℚ) * 2 ^ k := by
    calc (2 : ℚ) ^ (-1022 : ℤ) ≤ 2 ^ k := zpow_le_zpow_right₀ (by norm_num) hk
      _ = 1 * 2 ^ k := by ring
      _ ≤ (N : ℚ) * 2 ^ k := by gcongr
  have hpos : (0 : ℚ) < (N : ℚ) * 2 ^ k := by positivity
  obtain ⟨h1, -⟩ := log_spec _ hpos
  rw [roundQ_normal _ hx]
  set e := Int.log 2 ((N : ℚ) * 2 ^ k) with he
  have hek : e < 53 + k := by
    have : (2 : ℚ) ^ e < 2 ^ (53 + k) := by
      calc (2 : ℚ) ^ e ≤ (N : ℚ) * 2 ^ k := h1
        _ < 2 ^ (53 : ℤ) * 2 ^ k := by gcongr
        _ = 2 ^ (53 + k) := by rw [zpow_add₀ (by norm_num)]
    exact (zpow_lt_zpow_iff_right₀ (by norm_num)).mp this
  obtain ⟨j, hj⟩ : ∃ j : ℕ, k - (e - 52) = j := ⟨(k - (e - 52)).toNat, by omega⟩
  have hdiv : (N : ℚ) * 2 ^ k / 2 ^ (e - 52) = ((N * 2 ^ j : Int) : ℚ) := by
    rw [mul_div_assoc, ← zpow_sub₀ (by norm_num), hj]
    push_cast
    rw [zpow_natCast]
  rw [hdiv, roundHalfEven_intCast]
  push_cast
  rw [mul_assoc, ← zpow_natCast, ← zpow_add₀ (by norm_num), ← hj]
  congr 2
  ring

theorem roundHalfEven_eq (m : ℚ) (n : Int) (h : |m - n| < 1 / 2) : roundHalfEven m = n := by
  have herr := abs_le.mp (roundHalfEven_err m)
  have h' := abs_lt.mp h
  have h1 : ((roundHalfEven m : Int) : ℚ) < (n : ℚ) + 1 := by linarith [herr.2]
  have h2 : (n : ℚ) - 1 < ((roundHalfEven m : Int) : ℚ) := by linarith [herr.1]
  have h3 : roundHalfEven m < n + 1 := by exact_mod_cast h1
  have h4 : n - 1 < roundHalfEven m := by exact_mod_cast h2
  omega

/-- Rounding of a given normal value, from its binade and the nearest mantissa. -/
theorem roundQ_eq_of (x : ℚ) (e n : Int) (he : -1022 ≤ e) (h1 : (2 : ℚ) ^ e ≤ x)
    (h2 : x < (2 : ℚ) ^ (e + 1)) (hn : |x / 2 ^ (e - 52) - n| < 1 / 2) :
    roundQ x = (n : ℚ) * 2 ^ (e - 52) := by
  have hpos : (0 : ℚ) < x := lt_of_lt_of_le (by positivity) h1
  have hx : (2 : ℚ) ^ (-1022 : ℤ) ≤ x :=
    le_trans (zpow_le_zpow_right₀ (by norm_num) he) h1
  have hlog : Int.log 2 x = e := by
    have a1 := (Int.zpow_le_iff_le_log (b := 2) (by norm_num) hpos (x := e)).mp
      (by simpa using h1)
    have a2 := (Int.lt_zpow_iff_log_lt (b := 2) (by norm_num) hpos (x := e + 1)).mp
      (by simpa using h2)
    omega
  rw [roundQ_normal x hx, hlog, roundHalfEven_eq _ n hn]

theorem roundQ_zero : roundQ 0 = 0 := by
  unfold roundQ
  have : roundHalfEven ((0 : Int) : ℚ) = 0 := roundHalfEven_intCast 0
  simp at this
  simp [this]

theorem Double.round_zero : Double.round 0 = .fin 0 := by
  unfold Double.round
  rw [roundQ_zero, if_neg (by norm_num), if_neg (by norm_num)]

/-- In the range met here the rounding is finite and within a relative error of
2^-53. -/
theorem Double.round_eq_fin (x : ℚ) (h1 : 1 / 2 ^ 64 ≤ x) (h2 : x ≤ 2 ^ 64) :
    Double.round x = .fin (roundQ x) ∧
      x * (1 - 1 / 2 ^ 53) ≤ roundQ x ∧ roundQ x ≤ x * (1 + 1 / 2 ^ 53) := by
  have hx : (2 : ℚ) ^ (-1022 : ℤ) ≤ x := by
    refine le_trans ?_ h1
    have : (1 : ℚ) / 2 ^ 64 = 2 ^ (-64 : ℤ) := by norm_num
    rw [this]
    exact zpow_le_zpow_right₀ (by norm_num) (by norm_num)
  have hpos : (0 : ℚ) < x := lt_of_lt_of_le (by positivity) h1
  have herr := abs_le.mp (roundQ_err x hx)
  have hlo : x * (1 - 1 / 2 ^ 53) ≤ roundQ x := by
    have := herr.1
    have e : x * (1 - 1 / 2 ^ 53) = x - x / 2 ^ 53 := by ring
    rw [e]
    linarith
  have hhi : roundQ x ≤ x * (1 + 1 / 2 ^ 53) := by
    have := herr.2
    have e : x * (1 + 1 / 2 ^ 53) = x + x / 2 ^ 53 := by ring
    rw [e]
    linarith
  refine ⟨?_, hlo, hhi⟩
  have hbig : roundQ x < 2 ^ 1024 := by
    have : x * (1 + 1 / 2 ^ 53) ≤ 2 ^ 64 * 2 := by
      apply mul_le_mul h2 (by norm_num) (by norm_num) (by norm_num)
    have h3 : (2 : ℚ) ^ 64 * 2 < 2 ^ 1024 := by norm_num
    linarith
  have hneg : -(2 : ℚ) ^ 1024 < roundQ x := by
    have : (0 : ℚ) ≤ x * (1 - 1 / 2 ^ 53) := by
      apply mul_nonneg hpos.le
      norm_num
    have h3 : -(2 : ℚ) ^ 1024 < 0 := by norm_num
    linarith
  unfold Double.round
  rw [if_neg (not_le.mpr hbig), if_neg (not_le.mpr hneg)]

theorem Double.round_bounds (x : ℚ) (h1 : 1 / 2 ^ 64 ≤ x) (h2 : x ≤ 2 ^ 64) :
    ∃ y, Double.round x = .fin y ∧ x * (1 - 1 / 2 ^ 53) ≤ y ∧ y ≤ x * (1 + 1 / 2 ^ 53) :=
  ⟨roundQ x, Double.round_eq_fin x h1 h2⟩

theorem Double.round_scaled (N k : Int) (hN : 0 ≤ N) (hN2 : N < 2 ^ 53)
    (hk : -64 ≤ k) (hk2 : k ≤ 0) :
    Double.round ((N : ℚ) * 2 ^ k) = .fin ((N : ℚ) * 2 ^ k) := by
  rcases hN.eq_or_lt with h0 | hpos
  · subst h0
    simpa using Double.round_zero
  · have hex := roundQ_exact N k hpos hN2 (by omega)
    have hNq : (0 : ℚ) ≤ N := by exact_mod_cast hN
    have hN2q : (N : ℚ) < 2 ^ 53 := by exact_mod_cast hN2
    have hk1 : (0 : ℚ) < 2 ^ k := by positivity
    have hk3 : (2 : ℚ) ^ k ≤ 1 := by
      have := zpow_le_zpow_right₀ (a := (2 : ℚ)) (by norm_num) hk2
      simpa using this
    have hle : (N : ℚ) * 2 ^ k ≤ 2 ^ 53 := by
      calc (N : ℚ) * 2 ^ k ≤ (N : ℚ) * 1 := by gcongr
        _ ≤ 2 ^ 53 := by linarith
    have hge : (0 : ℚ) ≤ (N : ℚ) * 2 ^ k := by positivity
    unfold Double.round
    rw [hex, if_neg (by
      have h3 : (2 : ℚ) ^ 53 < 2 ^ 1024 := by norm_num
      exact not_le.mpr (by linarith)), if_neg (by
      have h3 : -(2 : ℚ) ^ 1024 < 0 := by norm_num
      exact not_le.mpr (by linarith))]

theorem Double.round_int (n : Int) (hn : 0 ≤ n) (hn2 : n < 2 ^ 53) :
    Double.round (n : ℚ) = .fin n := by
  simpa using Double.round_scaled n 0 hn hn2 (by norm_num) (by norm_num)

theorem Double.round_half (n : Int) (hn : 0 ≤ n) (hn2 : n < 2 ^ 53) :
    Double.round ((n : ℚ) / 2) = .fin ((n : ℚ) / 2) := by
  have := Double.round_scaled n (-1) hn hn2 (by norm_num) (by norm_num)
  have e : (n : ℚ) * 2 ^ (-1 : ℤ) = (n : ℚ) / 2 := by
    rw [zpow_neg_one]
    ring
  rwa [e] at this

theorem Double.mul_fin (a b : ℚ) : Double.mul (.fin a) (.fin b) = Double.round (a * b) := rfl

theorem Double.div_fin (a b : ℚ) (hb : b ≠ 0) :
    Double.div (.fin a) (.fin b) = Double.round (a / b) := by
  show (if b ≠ 0 then Double.round (a / b) else _) = _
  rw [if_pos hb]

theorem Double.ofInt_eq (n : Int) (hn : 0 ≤ n) (hn2 : n < 2 ^ 53) :
    Double.ofInt n = .fin n :=
  Double.round_int n hn hn2

theorem Double.one_mul_ofInt (n : Int) (hn : 0 ≤ n) (hn2 : n < 2 ^ 53) :
    Double.mul (.fin 1) (Double.ofInt n) = .fin n := by
  rw [Double.ofInt_eq n hn hn2]
  rw [Double.mul_fin, one_mul]
  exact Double.round_int n hn hn2

/-- The quotient `1.0 * a / b` of two positive C ints: finite, within a relative
error of 2^-53 of the exact quotient. -/
theorem Double.ratio_bounds (a b : Int) (ha : 0 < a) (ha2 : a < 2 ^ 31)
    (hb : 0 < b) (hb2 : b < 2 ^ 31) :
    ∃ y, Double.div (Double.mul (.fin 1) (Double.ofInt a)) (Double.ofInt b) = .fin y ∧
      (a : ℚ) / b * (1 - 1 / 2 ^ 53) ≤ y ∧ y ≤ (a : ℚ) / b * (1 + 1 / 2 ^ 53) := by
  have haq : (1 : ℚ) ≤ a := by exact_mod_cast ha
  have ha2q : (a : ℚ) ≤ 2 ^ 31 := by exact_mod_cast ha2.le
  have hbq : (1 : ℚ) ≤ b := by exact_mod_cast hb
  have hb2q : (b : ℚ) ≤ 2 ^ 31 := by exact_mod_cast hb2.le
  have hb0 : (b : ℚ) ≠ 0 := by positivity
  rw [Double.one_mul_ofInt a ha.le (by omega), Double.ofInt_eq b hb.le (by omega)]
  rw [Double.div_fin _ _ hb0]
  apply Double.round_bounds
  · rw [div_le_div_iff₀ (by positivity) (by positivity)]
    calc (1 : ℚ) * b ≤ 1 * 2 ^ 31 := by gcongr
      _ ≤ a * 2 ^ 64 := by nlinarith
  · rw [div_le_iff₀ (by positivity)]
    calc (a : ℚ) ≤ 2 ^ 31 := ha2q
      _ ≤ 2 ^ 64 * 1 := by norm_num
      _ ≤ 2 ^ 64 * b := by gcongr

/-- The centring offset `(int)floor(d / 2.0)` of a non-negative C int. -/
theorem Double.half_floor (d : Int) (hd : 0 ≤ d) (hd2 : d < 2 ^ 53) :
    Double.floorInt (Double.div (Double.ofInt d) (.fin 2)) = d / 2 := by
  rw [Double.ofInt_eq d hd hd2]
  rw [Double.div_fin _ _ (by norm_num), Double.round_half d hd hd2]
  show ⌊(d : ℚ) / 2⌋ = d / 2
  exact_mod_cast Rat.floor_intCast_div_natCast d 2

/-- The value `1.0 * a * b / c` of positive C ints: finite, positive, and at most
`(1 + 2^-53)^2` times the exact quotient. -/
theorem Double.quot_bounds (a b c : Int) (ha : 0 < a) (ha2 : a < 2 ^ 31)
    (hb : 0 < b) (hb2 : b < 2 ^ 31) (hc : 0 < c) (hc2 : c < 2 ^ 31) :
    ∃ t, Double.div (Double.mul (Double.mul (.fin 1) (Double.ofInt a)) (Double.ofInt b))
        (Double.ofInt c) = .fin t ∧ 0 ≤ t ∧
      t * c ≤ (a : ℚ) * b * (1 + 1 / 2 ^ 53) * (1 + 1 / 2 ^ 53) := by
  have haq : (1 : ℚ) ≤ a := by exact_mod_cast ha
  have ha2q : (a : ℚ) ≤ 2 ^ 31 := by exact_mod_cast ha2.le
  have hbq : (1 : ℚ) ≤ b := by exact_mod_cast hb
  have hb2q : (b : ℚ) ≤ 2 ^ 31 := by exact_mod_cast hb2.le
  have hcq : (1 : ℚ) ≤ c := by exact_mod_cast hc
  have hc2q : (c : ℚ) ≤ 2 ^ 31 := by exact_mod_cast hc2.le
  have hc0 : (c : ℚ) ≠ 0 := by positivity
  have hab1 : (1 : ℚ) ≤ (a : ℚ) * b := by nlinarith
  have hab2 : (a : ℚ) * b ≤ 2 ^ 62 := by
    calc (a : ℚ) * b ≤ 2 ^ 31 * 2 ^ 31 := by gcongr
      _ = 2 ^ 62 := by norm_num
  rw [Double.one_mul_ofInt a ha.le (by omega), Double.ofInt_eq b hb.le (by omega),
    Double.ofInt_eq c hc.le (by omega), Double.mul_fin]
  obtain ⟨t2, e2, lo2, hi2⟩ := Double.round_bounds ((a : ℚ) * b)
    (le_trans (by norm_num) hab1) (le_trans hab2 (by norm_num))
  rw [e2, Double.div_fin _ _ hc0]
  have ht2lo : (1 : ℚ) / 2 ≤ t2 := by
    have : (1 : ℚ) / 2 ≤ (a : ℚ) * b * (1 - 1 / 2 ^ 53) := by
      have h1 : (1 : ℚ) / 2 ≤ 1 - 1 / 2 ^ 53 := by norm_num
      nlinarith
    linarith
  have ht2hi : t2 ≤ 2 ^ 63 := by
    have : (a : ℚ) * b * (1 + 1 / 2 ^ 53) ≤ 2 ^ 62 * 2 := by
      apply mul_le_mul hab2 (by norm_num) (by norm_num) (by norm_num)
    have h3 : (2 : ℚ) ^ 62 * 2 = 2 ^ 63 := by norm_num
    linarith
  obtain ⟨t3, e3, lo3, hi3⟩ := Double.round_bounds (t2 / c)
    (by
      rw [div_le_div_iff₀ (by positivity) (by positivity)]
      have h1 : (1 : ℚ) * c ≤ 2 ^ 31 := by linarith
      have h2 : (2 : ℚ) ^ 31 ≤ t2 * 2 ^ 64 := by nlinarith
      linarith)
    (by
      rw [div_le_iff₀ (by positivity)]
      have h2 : (2 : ℚ) ^ 63 ≤ 2 ^ 64 * c := by nlinarith
      linarith)
  refine ⟨t3, e3, ?_, ?_⟩
  · have h1 : (0 : ℚ) ≤ t2 / c := by positivity
    have h2 : (0 : ℚ) ≤ t2 / c * (1 - 1 / 2 ^ 53) := mul_nonneg h1 (by norm_num)
    linarith
  · have h1 : t3 * c ≤ t2 / c * (1 + 1 / 2 ^ 53) * c :=
      mul_le_mul_of_nonneg_right hi3 (by positivity)
    have h2 : t2 / c * (1 + 1 / 2 ^ 53) * c = t2 * (1 + 1 / 2 ^ 53) := by
      field_simp
      ring
    have h3 : t2 * (1 + 1 / 2 ^ 53) ≤ (a : ℚ) * b * (1 + 1 / 2 ^ 53) * (1 + 1 / 2 ^ 53) :=
      mul_le_mul_of_nonneg_right hi2 (by norm_num)
    linarith

/-- The integer `(int)floor(1.0 * a * b / c)` stays between 0 and `A` as soon as
`a * b` is at most `A * c` up to the relative error of two roundings. -/
theorem Double.quot_floor_bounds (a b c A : Int) (ha : 0 < a) (ha2 : a < 2 ^ 31)
    (hb : 0 < b) (hb2 : b < 2 ^ 31) (hc : 0 < c) (hc2 : c < 2 ^ 31)
    (hA : 0 < A) (hA2 : A < 2 ^ 31)
    (h : (a : ℚ) * b * (1 - 1 / 2 ^ 53) ≤ (A : ℚ) * c * (1 + 1 / 2 ^ 53)) :
    0 ≤ Double.floorInt (Double.div (Double.mul (Double.mul (.fin 1) (Double.ofInt a))
        (Double.ofInt b)) (Double.ofInt c)) ∧
    Double.floorInt (Double.div (Double.mul (Double.mul (.fin 1) (Double.ofInt a))
        (Double.ofInt b)) (Double.ofInt c)) ≤ A := by
  obtain ⟨t, et, t0, ht⟩ := Double.quot_bounds a b c ha ha2 hb hb2 hc hc2
  have hcq : (0 : ℚ) < c := by exact_mod_cast hc
  have hAq : (0 : ℚ) < A := by exact_mod_cast hA
  have hA2q : (A : ℚ) ≤ 2 ^ 31 := by exact_mod_cast hA2.le
  rw [et]
  show 0 ≤ ⌊t⌋ ∧ ⌊t⌋ ≤ A
  refine ⟨Int.floor_nonneg.mpr t0, ?_⟩
  have key : t < (A : ℚ) + 1 := by
    -- t * c * (1 - u) ≤ a b (1 - u) (1 + u)^2 ≤ A c (1 + u)^3
    have s1 : t * c * (1 - 1 / 2 ^ 53)
        ≤ (a : ℚ) * b * (1 + 1 / 2 ^ 53) * (1 + 1 / 2 ^ 53) * (1 - 1 / 2 ^ 53) :=
      mul_le_mul_of_nonneg_right ht (by norm_num)
    have s2 : (a : ℚ) * b * (1 - 1 / 2 ^ 53) * ((1 + 1 / 2 ^ 53) * (1 + 1 / 2 ^ 53))
        ≤ (A : ℚ) * c * (1 + 1 / 2 ^ 53) * ((1 + 1 / 2 ^ 53) * (1 + 1 / 2 ^ 53)) :=
      mul_le_mul_of_nonneg_right h (by norm_num)
    have s3 : (A : ℚ) * ((1 + 1 / 2 ^ 53) * ((1 + 1 / 2 ^ 53) * (1 + 1 / 2 ^ 53)))
        < ((A : ℚ) + 1) * (1 - 1 / 2 ^ 53) := by
      have d : ((1 : ℚ) + 1 / 2 ^ 53) * ((1 + 1 / 2 ^ 53) * (1 + 1 / 2 ^ 53))
          - (1 - 1 / 2 ^ 53) ≤ 1 / 2 ^ 50 := by norm_num
      have d2 : (A : ℚ) * (((1 : ℚ) + 1 / 2 ^ 53) * ((1 + 1 / 2 ^ 53) * (1 + 1 / 2 ^ 53))
          - (1 - 1 / 2 ^ 53)) ≤ 2 ^ 31 * (1 / 2 ^ 50) :=
        mul_le_mul hA2q d (by norm_num) (by norm_num)
      have d3 : (2 : ℚ) ^ 31 * (1 / 2 ^ 50) < 1 - 1 / 2 ^ 53 := by norm_num
      linarith
    have s4 : c * (t * (1 - 1 / 2 ^ 53)) < c * (((A : ℚ) + 1) * (1 - 1 / 2 ^ 53)) := by
      have : c * ((A : ℚ) * ((1 + 1 / 2 ^ 53) * ((1 + 1 / 2 ^ 53) * (1 + 1 / 2 ^ 53))))
          < c * (((A : ℚ) + 1) * (1 - 1 / 2 ^ 53)) := mul_lt_mul_of_pos_left s3 hcq
      linarith
    have s5 := lt_of_mul_lt_mul_left s4 hcq.le
    exact lt_of_mul_lt_mul_right s5 (by norm_num)
  have : ⌊t⌋ < A + 1 := Int.floor_lt.mpr (by exact_mod_cast key)
  omega

theorem Double.ratio_eq (a b : Int) (ha : 0 ≤ a) (ha2 : a < 2 ^ 53)
    (hb : 0 < b) (hb2 : b < 2 ^ 53) :
    Double.div (Double.mul (.fin 1) (Double.ofInt a)) (Double.ofInt b)
      = Double.round ((a : ℚ) / b) := by
  have hb0 : (b : ℚ) ≠ 0 := by
    have : (0 : ℚ) < b := by exact_mod_cast hb
    positivity
  rw [Double.one_mul_ofInt a ha ha2, Double.ofInt_eq b hb.le hb2, Double.div_fin _ _ hb0]

theorem cross_mul (A B a b cm cp : ℚ) (hB : 0 < B) (hb : 0 < b)
    (h : A / B * cm ≤ a / b * cp) : A * b * cm ≤ a * B * cp := by
  have h1 := mul_le_mul_of_nonneg_right h (mul_pos hB hb).le
  have e1 : A / B * cm * (B * b) = A * b * cm := by
    field_simp
    ring
  have e2 : a / b * cp * (B * b) = a * B * cp := by
    field_simp
    ring
  rw [e1, e2] at h1
  exact h1

/-- What the comparison of the two rounded ratios says about the exact cross
products, for positive C ints. -/
theorem Double.ratio_gt_imp (W H w h : Int) (hW : 0 < W) (hW2 : W < 2 ^ 31)
    (hH : 0 < H) (hH2 : H < 2 ^ 31) (hw : 0 < w) (hw2 : w < 2 ^ 31)
    (hh : 0 < h) (hh2 : h < 2 ^ 31) :
    (Double.gt (Double.div (Double.mul (.fin 1) (Double.ofInt W)) (Double.ofInt H))
        (Double.div (Double.mul (.fin 1) (Double.ofInt w)) (Double.ofInt h)) = true →
      (w : ℚ) * H * (1 - 1 / 2 ^ 53) ≤ (W : ℚ) * h * (1 + 1 / 2 ^ 53)) ∧
    (Double.gt (Double.div (Double.mul (.fin 1) (Double.ofInt W)) (Double.ofInt H))
        (Double.div (Double.mul (.fin 1) (Double.ofInt w)) (Double.ofInt h)) ≠ true →
      (W : ℚ) * h * (1 - 1 / 2 ^ 53) ≤ (w : ℚ) * H * (1 + 1 / 2 ^ 53)) := by
  obtain ⟨ys, es, los, his⟩ := Double.ratio_bounds W H hW hW2 hH hH2
  obtain ⟨yi, ei, loi, hii⟩ := Double.ratio_bounds w h hw hw2 hh hh2
  have hHq : (0 : ℚ) < H := by exact_mod_cast hH
  have hhq : (0 : ℚ) < h := by exact_mod_cast hh
  rw [es, ei]
  show (decide (yi < ys) = true → _) ∧ (decide (yi < ys) ≠ true → _)
  constructor
  · intro hc
    have hc1 : yi < ys := of_decide_eq_true hc
    exact cross_mul w h W H _ _ hhq hHq (by linarith)
  · intro hc
    have hc1 : ¬ yi < ys := fun h1 => hc (decide_eq_true h1)
    exact cross_mul W H w h _ _ hHq hhq (by linarith)

/-- Below 2^26 the comparison of the rounded ratios is the exact comparison. -/
theorem Double.ratio_gt_exact (W H w h : Int) (hW : 0 ≤ W) (hW2 : W ≤ 2 ^ 26)
    (hH : 0 < H) (hH2 : H ≤ 2 ^ 26) (hw : 0 < w) (hw2 : w ≤ 2 ^ 26)
    (hh : 0 < h) (hh2 : h ≤ 2 ^ 26) :
    Double.gt (Double.div (Double.mul (.fin 1) (Double.ofInt W)) (Double.ofInt H))
        (Double.div (Double.mul (.fin 1) (Double.ofInt w)) (Double.ofInt h))
      = decide (w * H < W * h) := by
  have hHq : (0 : ℚ) < H := by exact_mod_cast hH
  have hhq : (0 : ℚ) < h := by exact_mod_cast hh
  have hwq : (0 : ℚ) < w := by exact_mod_cast hw
  obtain ⟨yi, ei, loi, hii⟩ := Double.ratio_bounds w h hw (by omega) hh (by omega)
  have hyi : 0 < yi := by
    have : (0 : ℚ) < (w : ℚ) / h * (1 - 1 / 2 ^ 53) := by
      apply mul_pos (by positivity) (by norm_num)
    linarith
  rcases hW.eq_or_lt with h0 | hWpos
  · subst h0
    rw [Double.ratio_eq 0 H le_rfl (by norm_num) hH (by omega), ei]
    simp only [Int.cast_zero, zero_div, Double.round_zero, zero_mul]
    show decide (yi < 0) = decide (w * H < 0)
    have h1 : ¬ yi < 0 := not_lt.mpr hyi.le
    have h2 : ¬ w * H < 0 := not_lt.mpr (by positivity)
    simp [h1, h2]
  · obtain ⟨ys, es, los, his⟩ := Double.ratio_bounds W H hWpos (by omega) hH (by omega)
    have hWq : (0 : ℚ) < W := by exact_mod_cast hWpos
    -- cross products, at most 2^52
    have hP : (W : ℚ) * h ≤ 2 ^ 52 := by
      have a1 : (W : ℚ) ≤ 2 ^ 26 := by exact_mod_cast hW2
      have a2 : (h : ℚ) ≤ 2 ^ 26 := by exact_mod_cast hh2
      calc (W : ℚ) * h ≤ 2 ^ 26 * 2 ^ 26 := by gcongr
        _ = 2 ^ 52 := by norm_num
    have hQ : (w : ℚ) * H ≤ 2 ^ 52 := by
      have a1 : (w : ℚ) ≤ 2 ^ 26 := by exact_mod_cast hw2
      have a2 : (H : ℚ) ≤ 2 ^ 26 := by exact_mod_cast hH2
      calc (w : ℚ) * H ≤ 2 ^ 26 * 2 ^ 26 := by gcongr
        _ = 2 ^ 52 := by norm_num
    -- the four bounds, cleared of denominators
    have b1 : (W : ℚ) * (1 - 1 / 2 ^ 53) ≤ ys * H := by
      have := mul_le_mul_of_nonneg_right los hHq.le
      have e : (W : ℚ) / H * (1 - 1 / 2 ^ 53) * H = W * (1 - 1 / 2 ^ 53) := by
        field_simp
        ring
      rwa [e] at this
    have b2 : ys * H ≤ (W : ℚ) * (1 + 1 / 2 ^ 53) := by
      have := mul_le_mul_of_nonneg_right his hHq.le
      have e : (W : ℚ) / H * (1 + 1 / 2 ^ 53) * H = W * (1 + 1 / 2 ^ 53) := by
        field_simp
        ring
      rwa [e] at this
    have b3 : (w : ℚ) * (1 - 1 / 2 ^ 53) ≤ yi * h := by
      have := mul_le_mul_of_nonneg_right loi hhq.le
      have e : (w : ℚ) / h * (1 - 1 / 2 ^ 53) * h = w * (1 - 1 / 2 ^ 53) := by
        field_simp
        ring
      rwa [e] at this
    have b4 : yi * h ≤ (w : ℚ) * (1 + 1 / 2 ^ 53) := by
      have := mul_le_mul_of_nonneg_right hii hhq.le
      have e : (w : ℚ) / h * (1 + 1 / 2 ^ 53) * h = w * (1 + 1 / 2 ^ 53) := by
        field_simp
        ring
      rwa [e] at this
    have hHh : (0 : ℚ) < H * h := mul_pos hHq hhq
    rw [es, ei]
    show decide (yi < ys) = decide (w * H < W * h)
    congr 1
    apply propext
    constructor
    · intro hlt
      by_contra hc
      have hc1 : W * h ≤ w * H := not_lt.mp hc
      rcases hc1.eq_or_lt with heq | hlt2
      · -- equal cross products: equal ratios, equal roundings
        have heq' : (W : ℚ) / H = (w : ℚ) / h := by
          rw [div_eq_div_iff hHq.ne.symm hhq.ne.symm]
          exact_mod_cast heq
        have e1 := Double.ratio_eq W H hW (by omega) hH (by omega)
        have e2 := Double.ratio_eq w h hw.le (by omega) hh (by omega)
        rw [heq', ← e2, ei] at e1
        rw [es] at e1
        have : ys = yi := by injection e1
        linarith
      · have hlt3 : (W : ℚ) * h + 1 ≤ (w : ℚ) * H := by exact_mod_cast hlt2
        -- ys * (H h) ≤ W h (1+u) < w H (1-u) ≤ yi * (H h)
        have c1 : ys * (H * h) ≤ (W : ℚ) * h * (1 + 1 / 2 ^ 53) := by
          calc ys * (H * h) = ys * H * h := by ring
            _ ≤ (W : ℚ) * (1 + 1 / 2 ^ 53) * h := mul_le_mul_of_nonneg_right b2 hhq.le
            _ = (W : ℚ) * h * (1 + 1 / 2 ^ 53) := by ring
        have c2 : (w : ℚ) * H * (1 - 1 / 2 ^ 53) ≤ yi * (H * h) := by
          calc (w : ℚ) * H * (1 - 1 / 2 ^ 53) = (w : ℚ) * (1 - 1 / 2 ^ 53) * H := by ring
            _ ≤ yi * h * H := mul_le_mul_of_nonneg_right b3 hHq.le
            _ = yi * (H * h) := by ring
        have c3 : (W : ℚ) * h * (1 + 1 / 2 ^ 53) < (w : ℚ) * H * (1 - 1 / 2 ^ 53) := by
          linarith
        have c4 : ys * (H * h) < yi * (H * h) := by linarith
        have := lt_of_mul_lt_mul_right c4 hHh.le
        linarith
    · intro hlt
      have hlt3 : (w : ℚ) * H + 1 ≤ (W : ℚ) * h := by exact_mod_cast hlt
      have c1 : yi * (H * h) ≤ (w : ℚ) * H * (1 + 1 / 2 ^ 53) := by
        calc yi * (H * h) = yi * h * H := by ring
          _ ≤ (w : ℚ) * (1 + 1 / 2 ^ 53) * H := mul_le_mul_of_nonneg_right b4 hHq.le
          _ = (w : ℚ) * H * (1 + 1 / 2 ^ 53) := by ring
      have c2 : (W : ℚ) * h * (1 - 1 / 2 ^ 53) ≤ ys * (H * h) := by
        calc (W : ℚ) * h * (1 - 1 / 2 ^ 53) = (W : ℚ) * (1 - 1 / 2 ^ 53) * h := by ring
          _ ≤ ys * H * h := mul_le_mul_of_nonneg_right b1 hhq.le
          _ = ys * (H * h) := by ring
      have c3 : (w : ℚ) * H * (1 + 1 / 2 ^ 53) < (W : ℚ) * h * (1 - 1 / 2 ^ 53) := by
        linarith
      have c4 : yi * (H * h) < ys * (H * h) := by linarith
      exact lt_of_mul_lt_mul_right c4 hHh.le

/-- Below 2^26 the value `(int)floor(1.0 * a * b / c)` is the integer quotient. -/
theorem Double.quot_floor_exact (a b c : Int) (ha : 0 ≤ a) (ha2 : a ≤ 2 ^ 26)
    (hb : 0 ≤ b) (hb2 : b ≤ 2 ^ 26) (hc : 0 < c) (hc2 : c ≤ 2 ^ 26) :
    Double.floorInt (Double.div (Double.mul (Double.mul (.fin 1) (Double.ofInt a))
        (Double.ofInt b)) (Double.ofInt c)) = a * b / c := by
  have hcq : (0 : ℚ) < c := by exact_mod_cast hc
  have hn0 : 0 ≤ a * b := mul_nonneg ha hb
  have hn2 : a * b ≤ 2 ^ 52 := by
    calc a * b ≤ 2 ^ 26 * 2 ^ 26 := mul_le_mul ha2 hb2 hb (by norm_num)
      _ = 2 ^ 52 := by norm_num
  rw [Double.one_mul_ofInt a ha (by omega), Double.ofInt_eq b hb (by omega),
    Double.ofInt_eq c hc.le (by omega), Double.mul_fin]
  have ecast : (a : ℚ) * b = ((a * b : Int) : ℚ) := by push_cast; ring
  rw [ecast, Double.round_int (a * b) hn0 (by omega), Double.div_fin _ _ hcq.ne.symm]
  generalize a * b = n at hn0 hn2
  have hdiv := Int.ediv_add_emod n c
  have hr0 := Int.emod_nonneg n hc.ne.symm
  have hr1 := Int.emod_lt_of_pos n hc
  have hk0 : 0 ≤ n / c := Int.ediv_nonneg hn0 hc.le
  by_cases hr : n % c = 0
  · have hn : n = c * (n / c) := by omega
    have e : (n : ℚ) / c = ((n / c : Int) : ℚ) := by
      rw [div_eq_iff hcq.ne.symm]
      have : (n : ℚ) = ((c * (n / c) : Int) : ℚ) := by rw [← hn]
      rw [this]
      push_cast
      ring
    have hk2 : n / c < 2 ^ 53 := by
      have : n / c ≤ n := Int.ediv_le_self c hn0
      omega
    rw [e, Double.round_int _ hk0 hk2]
    show ⌊((n / c : Int) : ℚ)⌋ = n / c
    exact Int.floor_intCast _
  · have hn1 : 1 ≤ n := by
      rcases hn0.eq_or_lt with h | h
      · exfalso
        apply hr
        rw [← h]
        simp
      · omega
    have hnq1 : (1 : ℚ) ≤ n := by exact_mod_cast hn1
    have hnq2 : (n : ℚ) ≤ 2 ^ 52 := by exact_mod_cast hn2
    have hcq2 : (c : ℚ) ≤ 2 ^ 26 := by exact_mod_cast hc2
    obtain ⟨y, ey, lo, hi⟩ := Double.round_bounds ((n : ℚ) / c)
      (by
        rw [div_le_div_iff₀ (by positivity) hcq]
        have : (2 : ℚ) ^ 26 ≤ n * 2 ^ 64 := by nlinarith
        linarith)
      (by
        rw [div_le_iff₀ hcq]
        have h1 : (1 : ℚ) ≤ c := by exact_mod_cast hc
        have : (2 : ℚ) ^ 52 ≤ 2 ^ 64 * c := by nlinarith
        linarith)
    rw [ey]
    show ⌊y⌋ = n / c
    have lo' : (n : ℚ) * (1 - 1 / 2 ^ 53) ≤ y * c := by
      have := mul_le_mul_of_nonneg_right lo hcq.le
      have e : (n : ℚ) / c * (1 - 1 / 2 ^ 53) * c = n * (1 - 1 / 2 ^ 53) := by
        field_simp
        ring
      rwa [e] at this
    have hi' : y * c ≤ (n : ℚ) * (1 + 1 / 2 ^ 53) := by
      have := mul_le_mul_of_nonneg_right hi hcq.le
      have e : (n : ℚ) / c * (1 + 1 / 2 ^ 53) * c = n * (1 + 1 / 2 ^ 53) := by
        field_simp
        ring
      rwa [e] at this
    have hnq : (n : ℚ) = (c : ℚ) * ((n / c : Int) : ℚ) + ((n % c : Int) : ℚ) := by
      exact_mod_cast hdiv.symm
    have hrq1 : (1 : ℚ) ≤ ((n % c : Int) : ℚ) := by
      have : 1 ≤ n % c := by omega
      exact_mod_cast this
    have hrq2 : ((n % c : Int) : ℚ) ≤ (c : ℚ) - 1 := by
      have : n % c ≤ c - 1 := by omega
      exact_mod_cast this
    rw [Int.floor_eq_iff]
    constructor
    · have : ((n / c : Int) : ℚ) * c < y * c := by linarith
      exact le_of_lt (lt_of_mul_lt_mul_right this hcq.le)
    · have : y * c < (((n / c : Int) : ℚ) + 1) * c := by linarith
      exact lt_of_mul_lt_mul_right this hcq.le

/-- Integer form of the autofit rectangle for dimensions up to 2^26: there the
roundings change neither the comparison of the ratios nor the floors of the
quotients, which are integer divisions. -/
theorem DrawImg_rr_autofit (s : PkMatToGDI) (x y W H w h : Int)
    (hfit : s.m_autofit = true) (hrect : s.m_ctrlRectCv = ⟨x, y, W, H⟩)
    (hratio : s.m_ctrlRectRatio
      = Double.div (Double.mul (.fin 1) (Double.ofInt W)) (Double.ofInt H))
    (hW : 0 ≤ W) (hW2 : W ≤ 2 ^ 26) (hH : 0 < H) (hH2 : H ≤ 2 ^ 26)
    (hw : 0 < w) (hw2 : w ≤ 2 ^ 26) (hh : 0 < h) (hh2 : h ≤ 2 ^ 26) :
    DrawImg_rr s w h =
      if w * H < W * h then ⟨(W - w * H / h) / 2, y, w * H / h, H⟩
      else ⟨x, Int.tdiv (H - h * W / w) 2, W, h * W / w⟩ := by
  unfold DrawImg_rr
  rw [if_pos hfit, hratio, hrect]
  simp only
  rw [Double.ratio_gt_exact W H w h hW hW2 hH hH2 hw hw2 hh hh2,
    Double.quot_floor_exact w H h hw.le hw2 hH.le hH2 hh hh2,
    Double.quot_floor_exact h W w hh.le hh2 hW hW2 hw hw2]
  by_cases hc : w * H < W * h
  · have h1 : w * H / h < W := Int.ediv_lt_of_lt_mul hh hc
    have h0 : 0 ≤ w * H / h := Int.ediv_nonneg (mul_nonneg hw.le hH.le) hh.le
    rw [if_pos (by simpa using hc), if_pos hc,
      Double.half_floor (W - w * H / h) (by omega) (by omega)]
  · rw [if_neg (by simpa using hc), if_neg hc]

theorem DrawImg_prepare_frame (s : PkMatToGDI) (img : Mat) (bpp padding : Int) :
    (DrawImg_prepare s img bpp padding).m_WinCtrl = s.m_WinCtrl ∧
    (DrawImg_prepare s img bpp padding).m_autofit = s.m_autofit ∧
    (DrawImg_prepare s img bpp padding).m_ctrlRectWin = s.m_ctrlRectWin ∧
    (DrawImg_prepare s img bpp padding).m_ctrlRectCv = s.m_ctrlRectCv ∧
    (DrawImg_prepare s img bpp padding).m_ctrlRectRatio = s.m_ctrlRectRatio ∧
    (DrawImg_prepare s img bpp padding).m_destRectCv = s.m_destRectCv := by
  unfold DrawImg_prepare
  split_ifs <;> simp

theorem DrawImg_chain_fst (s1 : PkMatToGDI) (rr : Rect) (img_w : Int) :
    (DrawImg_chain s1 rr img_w).1 = rr := by
  unfold DrawImg_chain
  split_ifs with h1 h2 h3
  · rfl
  · rfl
  · exact (not_not.mp h2).symm
  · exact (not_not.mp h2).symm

/-- The depth test of `DrawImg` in terms of the pixel size. -/
theorem validDepth_iff (img : Mat) :
    (8 * (img.elemSize : Int) = 8 ∨ 8 * (img.elemSize : Int) = 24 ∨
      8 * (img.elemSize : Int) = 32) ↔ validDepth img := by
  unfold validDepth
  omega

/-- What `DrawImg` does for a bound presenter and a non-empty image of a valid
depth. -/
theorem DrawImg_bound (s : PkMatToGDI) (img : Mat) (n : Int)
    (hb : s.m_WinCtrl ≠ none) (he : img.empty = false) (hd : validDepth img) :
    DrawImg s img n = some
      (if (DrawImg_tempimg img (DrawImg_padding (8 * img.elemSize) img.cols)).size
          = s.m_ctrlRectCv.size then
        DrawImg_direct (DrawImg_prepare s img (8 * img.elemSize)
            (DrawImg_padding (8 * img.elemSize) img.cols))
          (DrawImg_tempimg img (DrawImg_padding (8 * img.elemSize) img.cols))
          ⟨(DrawImg_tempimg img (DrawImg_padding (8 * img.elemSize) img.cols)).cols,
            -((DrawImg_tempimg img (DrawImg_padding (8 * img.elemSize) img.cols)).rows : Int),
            8 * img.elemSize⟩ n
      else
        DrawImg_stretch (DrawImg_prepare s img (8 * img.elemSize)
            (DrawImg_padding (8 * img.elemSize) img.cols))
          (DrawImg_rr s img.cols img.rows) img.cols img.rows
          ⟨(DrawImg_tempimg img (DrawImg_padding (8 * img.elemSize) img.cols)).cols,
            -((DrawImg_tempimg img (DrawImg_padding (8 * img.elemSize) img.cols)).rows : Int),
            8 * img.elemSize⟩ n) := by
  have hv := (validDepth_iff img).mpr hd
  unfold DrawImg
  rw [if_neg (by simp [hb, he]), if_pos hv]
  simp only [(DrawImg_prepare_frame s img _ _).2.2.2.1]
  split_ifs <;> rfl

/-- An unbound presenter or an empty image: `DrawImg` returns false at once. -/
theorem DrawImg_guard (s : PkMatToGDI) (img : Mat) (n : Int)
    (hg : s.m_WinCtrl = none ∨ img.empty = true) :
    DrawImg s img n = some ⟨false, s, []⟩ := by
  unfold DrawImg
  rw [if_pos hg]

/-- Past the guard, an image of another depth stops at the assertion. -/
theorem DrawImg_abort (s : PkMatToGDI) (img : Mat) (n : Int)
    (hg : ¬ (s.m_WinCtrl = none ∨ img.empty = true)) (hd : ¬ validDepth img) :
    DrawImg s img n = none := by
  unfold DrawImg
  rw [if_neg hg, if_neg (fun h => hd ((validDepth_iff img).mp h))]

/-- A returning `DrawImg` never touches the bound control, the fit mode or the
surface geometry. -/
theorem DrawImg_frame (s : PkMatToGDI) (img : Mat) (n : Int) (r : DrawResult)
    (h : DrawImg s img n = some r) :
    r.state.m_WinCtrl = s.m_WinCtrl ∧ r.state.m_autofit = s.m_autofit ∧
    r.state.m_ctrlRectWin = s.m_ctrlRectWin ∧ r.state.m_ctrlRectCv = s.m_ctrlRectCv ∧
    r.state.m_ctrlRectRatio = s.m_ctrlRectRatio := by
  obtain ⟨p1, p2, p3, p4, p5, -⟩ :=
    DrawImg_prepare_frame s img (8 * img.elemSize) (DrawImg_padding (8 * img.elemSize) img.cols)
  by_cases hg : s.m_WinCtrl = none ∨ img.empty = true
  · rw [DrawImg_guard s img n hg] at h
    cases h
    simp
  · by_cases hd : validDepth img
    · rw [not_or] at hg
      rw [DrawImg_bound s img n hg.1 (by simpa using hg.2) hd] at h
      cases h
      unfold DrawImg_direct DrawImg_stretch
      split_ifs <;> simp [p1, p2, p3, p4, p5]
    · rw [DrawImg_abort s img n hg hd] at h
      cases h

/-- After a returning `DrawImg` the cached destination rectangle is the old one,
the surface rectangle, or the rectangle `rr` computed for the image. -/
theorem DrawImg_destRect (s : PkMatToGDI) (img : Mat) (n : Int) (r : DrawResult)
    (h : DrawImg s img n = some r) :
    r.state.m_destRectCv = s.m_destRectCv ∨ r.state.m_destRectCv = s.m_ctrlRectCv ∨
    r.state.m_destRectCv = DrawImg_rr s img.cols img.rows := by
  obtain ⟨-, -, -, p4, -, p6⟩ :=
    DrawImg_prepare_frame s img (8 * img.elemSize) (DrawImg_padding (8 * img.elemSize) img.cols)
  by_cases hg : s.m_WinCtrl = none ∨ img.empty = true
  · rw [DrawImg_guard s img n hg] at h
    cases h
    simp
  · by_cases hd : validDepth img
    · rw [not_or] at hg
      rw [DrawImg_bound s img n hg.1 (by simpa using hg.2) hd] at h
      cases h
      unfold DrawImg_direct DrawImg_stretch
      split_ifs <;> simp [p4, p6, DrawImg_chain_fst]
    · rw [DrawImg_abort s img n hg hd] at h
      cases h

/-- A reachable state is bound, its surface geometry is that of the control, and
the dimensions of the control are C ints. -/
theorem Reachable.geometry {W H : Int} {s : PkMatToGDI} (h : Reachable W H s) :
    s.m_WinCtrl ≠ none ∧ s.m_ctrlRectCv = ⟨0, 0, W, H⟩ ∧
    s.m_ctrlRectRatio
      = Double.div (Double.mul (.fin 1) (Double.ofInt W)) (Double.ofInt H) ∧
    W ≤ INT_MAX ∧ H ≤ INT_MAX := by
  induction h with
  | bind s0 c autofit hc hW hH => simp [Init, hc, hW, hH]
  | setAutofit s autofit _ ih => simpa [SetAutofit] using ih
  | draw s img n r _ _ _ _ hr ih =>
    obtain ⟨f1, -, -, f4, f5⟩ := DrawImg_frame s img n r hr
    rw [f1, f4, f5]
    exact ih

/-- The rectangle `rr` lies inside a surface of positive size at the origin, for
all dimensions in the range of a C int, roundings included. -/
theorem DrawImg_rr_inside (s : PkMatToGDI) (W H w h : Int)
    (hrect : s.m_ctrlRectCv = ⟨0, 0, W, H⟩)
    (hratio : s.m_ctrlRectRatio
      = Double.div (Double.mul (.fin 1) (Double.ofInt W)) (Double.ofInt H))
    (hW : 0 < W) (hW2 : W ≤ INT_MAX) (hH : 0 < H) (hH2 : H ≤ INT_MAX)
    (hw : 0 < w) (hw2 : w ≤ INT_MAX) (hh : 0 < h) (hh2 : h ≤ INT_MAX) :
    (DrawImg_rr s w h).inside W H := by
  unfold INT_MAX at hW2 hH2 hw2 hh2
  by_cases hfit : s.m_autofit = true
  · obtain ⟨g1, g2⟩ := Double.ratio_gt_imp W H w h hW (by omega) hH (by omega)
      hw (by omega) hh (by omega)
    unfold DrawImg_rr Rect.inside
    rw [if_pos hfit, hratio, hrect]
    simp only
    by_cases hg : Double.gt (Double.div (Double.mul (.fin 1) (Double.ofInt W)) (Double.ofInt H))
        (Double.div (Double.mul (.fin 1) (Double.ofInt w)) (Double.ofInt h)) = true
    · obtain ⟨b1, b2⟩ := Double.quot_floor_bounds w H h W hw (by omega) hH (by omega)
        hh (by omega) hW (by omega) (g1 hg)
      rw [if_pos hg]
      simp only
      rw [Double.half_floor _ (by omega) (by omega)]
      omega
    · obtain ⟨b1, b2⟩ := Double.quot_floor_bounds h W w H hh (by omega) hW (by omega)
        hw (by omega) hH (by omega) (by have := g2 hg; linarith)
      rw [if_neg hg]
      simp only
      rw [Int.tdiv_eq_ediv (by omega) (by norm_num)]
      omega
  · unfold DrawImg_rr Rect.inside
    rw [if_neg hfit, hrect]
    simp only
    omega

theorem transferRects_chain (s1 : PkMatToGDI) (rr : Rect) (img_w : Int) (c : GdiCall) :
    transferRects ((DrawImg_chain s1 rr img_w).2 ++ [c]) = transferRects [c] := by
  unfold DrawImg_chain
  split_ifs <;> rfl

theorem DrawImg_chain_clear (s1 : PkMatToGDI) (rr : Rect) (img_w : Int) :
    BackgroundClear s1 ∈ (DrawImg_chain s1 rr img_w).2 ↔
      0 < s1.m_destRectCv.width ∧ rr ≠ s1.m_destRectCv := by
  unfold DrawImg_chain
  split_ifs with h1 h2 h3
  · constructor
    · intro h
      simp at h
    · rintro ⟨h, -⟩
      omega
  · constructor
    · intro _
      exact ⟨by omega, h2⟩
    · intro _
      simp
  · constructor
    · intro h
      simp [BackgroundClear] at h
    · rintro ⟨-, h⟩
      exact absurd h h2
  · constructor
    · intro h
      simp [BackgroundClear] at h
    · rintro ⟨-, h⟩
      exact absurd h h2

theorem DrawImg_rr_stretch (s : PkMatToGDI) (w h : Int) (hfit : s.m_autofit = false) :
    DrawImg_rr s w h = s.m_ctrlRectCv := by
  unfold DrawImg_rr
  rw [if_neg (by simp [hfit])]

/-! ## Theorems -/

/-- C1, as the code has it: for a presenter bound to a surface of width `W` and
height `H` at the origin and set to autofit, and a non-empty image of `w`
columns and `h` rows, all four dimensions being at most 2^26 = 67108864, the
rectangle `rr` of `DrawImg` has height `H` and width `floor(w*H/h)` when
`W/H > w/h`, and width `W` and height `floor(h*W/w)` when `W/H <= w/h`, the
ratios and quotients being taken in the rationals. -/
theorem autofit_rect_formula (W H : Int) (s : PkMatToGDI) (img : Mat)
    (hW : 0 < W) (hH : 0 < H) (hs : Reachable W H s) (hfit : s.m_autofit = true)
    (himg : img.empty = false)
    (hW2 : W ≤ 2 ^ 26) (hH2 : H ≤ 2 ^ 26)
    (hw2 : (img.cols : Int) ≤ 2 ^ 26) (hh2 : (img.rows : Int) ≤ 2 ^ 26) :
    ((W : ℚ) / H > (img.cols : ℚ) / img.rows →
      (DrawImg_rr s img.cols img.rows).height = H ∧
      (DrawImg_rr s img.cols img.rows).width = ⌊((img.cols : ℚ) * H) / img.rows⌋) ∧
    ((W : ℚ) / H ≤ (img.cols : ℚ) / img.rows →
      (DrawImg_rr s img.cols img.rows).width = W ∧
      (DrawImg_rr s img.cols img.rows).height = ⌊((img.rows : ℚ) * W) / img.cols⌋) := by
  obtain ⟨-, hrect, hratio, -, -⟩ := hs.geometry
  have hne : img.rows ≠ 0 ∧ img.cols ≠ 0 := by simpa [Mat.empty] using himg
  have hw : (0 : Int) < img.cols := by have := hne.2; omega
  have hh : (0 : Int) < img.rows := by have := hne.1; omega
  have hHq : (0 : ℚ) < H := by exact_mod_cast hH
  have hhq : (0 : ℚ) < img.rows := by exact_mod_cast hh
  have hcmp : (img.cols : ℚ) / img.rows < (W : ℚ) / H ↔ (img.cols : Int) * H < W * img.rows := by
    rw [div_lt_div_iff₀ hhq hHq]
    exact_mod_cast Iff.rfl
  have fw : ⌊((img.cols : ℚ) * H) / img.rows⌋ = (img.cols : Int) * H / img.rows := by
    have := Rat.floor_intCast_div_natCast ((img.cols : Int) * H) img.rows
    push_cast at this
    exact this
  have fh : ⌊((img.rows : ℚ) * W) / img.cols⌋ = (img.rows : Int) * W / img.cols := by
    have := Rat.floor_intCast_div_natCast ((img.rows : Int) * W) img.cols
    push_cast at this
    exact this
  rw [DrawImg_rr_autofit s 0 0 W H img.cols img.rows hfit hrect hratio hW.le hW2 hH hH2
    hw hw2 hh hh2, fw, fh]
  constructor
  · intro hgt
    rw [if_pos (hcmp.mp hgt)]
    exact ⟨rfl, rfl⟩
  · intro hle
    rw [if_neg (fun hc => absurd (hcmp.mpr hc) (not_lt.mpr hle))]
    exact ⟨rfl, rfl⟩

/-- C3: in every state reachable from a successful bind to a surface with origin
(0,0) and positive width `W` and height `H`, by calls of `SetAutofit` and of
`DrawImg` on non-empty images, the cached destination rectangle lies inside the
surface: its offsets are non-negative, `x + width <= W` and `y + height <= H`.
This holds with the binary64 roundings of the code, over the whole range of
C ints. -/
theorem destRect_inside_surface (W H : Int) (s : PkMatToGDI)
    (hW : 0 < W) (hH : 0 < H) (hs : Reachable W H s) :
    0 ≤ s.m_destRectCv.x ∧ 0 ≤ s.m_destRectCv.y ∧
    s.m_destRectCv.x + s.m_destRectCv.width ≤ W ∧
    s.m_destRectCv.y + s.m_destRectCv.height ≤ H := by
  induction hs with
  | bind s0 c autofit hc _ _ =>
    simp only [Init, hc]
    omega
  | setAutofit s autofit _ ih => simpa [SetAutofit] using ih
  | draw s img n r hs himg hw2 hh2 hr ih =>
    obtain ⟨-, hrect, hratio, hW2, hH2⟩ := hs.geometry
    have hne : img.rows ≠ 0 ∧ img.cols ≠ 0 := by simpa [Mat.empty] using himg
    have hw : (0 : Int) < img.cols := by have := hne.2; omega
    have hh : (0 : Int) < img.rows := by have := hne.1; omega
    rcases DrawImg_destRect s img n r hr with e | e | e
    · rw [e]
      exact ih
    · rw [e, hrect]
      simp only
      omega
    · rw [e]
      exact DrawImg_rr_inside s W H img.cols img.rows hrect hratio hW hW2 hH hH2
        hw hw2 hh hh2

/-- Evaluation: the first draw of the 640 x 480 RGBA image on the 800 x 400
control in autofit mode. -/
theorem DrawImg_autofit800x400 (n : Int) :
    DrawImg autofit800x400 img640x480x32 n = some
      ⟨decide (n ≠ 0),
        { autofit800x400 with
          m_destRectCv := ⟨133, 0, 533, 400⟩, m_bmiColor := ⟨640, -480, 32⟩ },
        [GdiCall.Rectangle 0 0 800 400,
          GdiCall.StretchDIBits 133 0 533 400 0 0 640 480 ⟨640, -480, 32⟩]⟩ := by
  have hrr : DrawImg_rr autofit800x400 img640x480x32.cols img640x480x32.rows
      = ⟨133, 0, 533, 400⟩ := by
    rw [DrawImg_rr_autofit autofit800x400 0 0 800 400 _ _ rfl rfl rfl
      (by decide) (by decide) (by decide) (by decide) (by decide) (by decide)
      (by decide) (by decide)]
    decide
  rw [DrawImg_bound autofit800x400 img640x480x32 n (by decide) rfl (by decide),
    if_neg (by decide)]
  unfold DrawImg_stretch
  rw [hrr]
  by_cases hn : n = 0
  · subst hn
    rfl
  · rw [if_neg hn, decide_eq_true hn]
    rfl

/-- Evaluation: the first draw of the 640 x 480 RGBA image on the 0 x 5 control
in autofit mode. -/
theorem DrawImg_autofit0x5 :
    DrawImg autofit0x5 img640x480x32 1 = some
      ⟨true,
        { autofit0x5 with m_destRectCv := ⟨0, 2, 0, 0⟩, m_bmiColor := ⟨640, -480, 32⟩ },
        [GdiCall.StretchDIBits 0 2 0 0 0 0 640 480 ⟨640, -480, 32⟩]⟩ := by
  have hrr : DrawImg_rr autofit0x5 img640x480x32.cols img640x480x32.rows
      = ⟨0, 2, 0, 0⟩ := by
    rw [DrawImg_rr_autofit autofit0x5 0 0 0 5 _ _ rfl rfl rfl
      (by decide) (by decide) (by decide) (by decide) (by decide) (by decide)
      (by decide) (by decide)]
    decide
  rw [DrawImg_bound autofit0x5 img640x480x32 1 (by decide) rfl (by decide),
    if_neg (by decide)]
  unfold DrawImg_stretch
  rw [hrr]
  rfl

/-- Evaluation: the 640 x 480 RGB image drawn by a presenter freshly bound to the
640 x 480 control in stretch mode. -/
theorem DrawImg_stretch640x480 :
    DrawImg stretch640x480 img640x480x24 1 = some
      ⟨true, { stretch640x480 with m_bmiColor := ⟨640, -480, 24⟩ },
        [GdiCall.SetDIBitsToDevice 0 0 640 480 0 0 0 480 ⟨640, -480, 24⟩]⟩ := by
  rw [DrawImg_bound stretch640x480 img640x480x24 1 (by decide) rfl (by decide),
    if_pos (by decide)]
  rfl

/-- Evaluation with the roundings of binary64: on the 1073741825 x 2147483647
control the image of 2147483647 columns and 2147483645 rows is fitted to the
width, and the height computed is 1073741824.  The product 2147483645 *
1073741825 = 2305843008139952125 is rounded to 2305843008139952128, whose
quotient by 2147483647 is exactly 2^30. -/
theorem DrawImg_rr_autofitHuge :
    (DrawImg_rr autofitHuge imgHuge.cols imgHuge.rows).height = 1073741824 := by
  have hratio : autofitHuge.m_ctrlRectRatio
      = Double.div (Double.mul (.fin 1) (Double.ofInt 1073741825))
          (Double.ofInt 2147483647) := rfl
  have hrect : autofitHuge.m_ctrlRectCv = ⟨0, 0, 1073741825, 2147483647⟩ := rfl
  have hcols : (imgHuge.cols : Int) = 2147483647 := rfl
  have hrows : (imgHuge.rows : Int) = 2147483645 := rfl
  have hg : ¬ (Double.gt
      (Double.div (Double.mul (.fin 1) (Double.ofInt 1073741825)) (Double.ofInt 2147483647))
      (Double.div (Double.mul (.fin 1) (Double.ofInt 2147483647)) (Double.ofInt 2147483645))
        = true) := by
    intro hg
    have := (Double.ratio_gt_imp 1073741825 2147483647 2147483647 2147483645
      (by decide) (by decide) (by decide) (by decide) (by decide) (by decide)
      (by decide) (by decide)).1 hg
    norm_num at this
  have hround : Double.round 2305843008139952125 = .fin 2305843008139952128 := by
    rw [(Double.round_eq_fin 2305843008139952125 (by norm_num) (by norm_num)).1,
      roundQ_eq_of 2305843008139952125 60 9007199250546688 (by norm_num) (by norm_num)
        (by norm_num) (by rw [abs_lt]; norm_num)]
    norm_num
  unfold DrawImg_rr
  rw [if_pos (show autofitHuge.m_autofit = true from rfl), hratio, hrect, hcols, hrows,
    if_neg hg]
  simp only
  rw [Double.one_mul_ofInt 2147483645 (by decide) (by decide),
    Double.ofInt_eq 1073741825 (by decide) (by decide),
    Double.ofInt_eq 2147483647 (by decide) (by decide), Double.mul_fin]
  have hx : ((2147483645 : Int) : ℚ) * ((1073741825 : Int) : ℚ) = 2305843008139952125 := by
    norm_num
  rw [hx, hround, Double.div_fin _ _ (by norm_num)]
  have hq : (2305843008139952128 : ℚ) / ((2147483647 : Int) : ℚ)
      = ((1073741824 : Int) : ℚ) := by norm_num
  rw [hq, Double.round_int 1073741824 (by decide) (by decide)]
  show ⌊((1073741824 : Int) : ℚ)⌋ = 1073741824
  exact Int.floor_intCast _

/-- Witness of C1: surface 800 x 400 (ratio 2), image 640 x 480 (ratio 4/3):
the height is 400 and the width is the floor of 640 * 400 / 480. -/
theorem autofit_rect_formula_witness :
    (DrawImg_rr autofit800x400 img640x480x32.cols img640x480x32.rows).height = 400 ∧
    (DrawImg_rr autofit800x400 img640x480x32.cols img640x480x32.rows).width
      = ⌊((img640x480x32.cols : ℚ) * (400 : Int)) / img640x480x32.rows⌋ :=
  (autofit_rect_formula 800 400 autofit800x400 img640x480x32 (by decide) (by decide)
    (Reachable.bind _ _ _ rfl (by decide) (by decide)) rfl rfl
    (by decide) (by decide) (by decide) (by decide)).1 (by norm_num [img640x480x32])

/-- C1 fails as stated for large dimensions: on a surface of 1073741825 x
2147483647 in autofit mode, for an image of 2147483647 columns and 2147483645
rows, `W/H <= w/h` holds and `floor(h*W/w)` is 1073741823, yet the height of
the rectangle computed in binary64 is 1073741824. -/
theorem autofit_rect_formula_counterexample :
    Reachable 1073741825 2147483647 autofitHuge ∧ autofitHuge.m_autofit = true ∧
    imgHuge.empty = false ∧
    (1073741825 : ℚ) / 2147483647 ≤ (imgHuge.cols : ℚ) / imgHuge.rows ∧
    ⌊((imgHuge.rows : ℚ) * 1073741825) / imgHuge.cols⌋ = 1073741823 ∧
    (DrawImg_rr autofitHuge imgHuge.cols imgHuge.rows).height = 1073741824 := by
  refine ⟨Reachable.bind _ _ _ rfl (by decide) (by decide), rfl, rfl, ?_, ?_,
    DrawImg_rr_autofitHuge⟩
  · norm_num [imgHuge]
  · rw [Int.floor_eq_iff]
    norm_num [imgHuge]

/-- Witness of C3: the state left by the first draw of the 640 x 480 image on
the 800 x 400 control, cached rectangle (133, 0, 533, 400). -/
theorem destRect_inside_surface_witness :
    Reachable 800 400 { autofit800x400 with
      m_destRectCv := ⟨133, 0, 533, 400⟩, m_bmiColor := ⟨640, -480, 32⟩ } ∧
    ((0 : Int) ≤ 133 ∧ (0 : Int) ≤ 0 ∧ (133 : Int) + 533 ≤ 800 ∧ (0 : Int) + 400 ≤ 400) :=
  ⟨Reachable.draw autofit800x400 img640x480x32 1 _
      (Reachable.bind _ _ _ rfl (by decide) (by decide)) rfl (by decide) (by decide)
      (DrawImg_autofit800x400 1),
  destRect_inside_surface 800 400
    { autofit800x400 with
      m_destRectCv := ⟨133, 0, 533, 400⟩, m_bmiColor := ⟨640, -480, 32⟩ }
    (by decide) (by decide)
    (Reachable.draw autofit800x400 img640x480x32 1 _
      (Reachable.bind _ _ _ rfl (by decide) (by decide)) rfl (by decide) (by decide)
      (DrawImg_autofit800x400 1))⟩

/-- C2: for a bound presenter with autofit off and a non-empty image (of depth
8, 24 or 32, the ones `DrawImg` accepts), whatever the size of the image and
whatever rectangle is cached, `DrawImg` returns and makes exactly one transfer
call (direct or scaled), whose destination is the full surface rectangle. -/
theorem stretch_transfers_to_surface (s : PkMatToGDI) (img : Mat) (n : Int)
    (hb : s.m_WinCtrl ≠ none) (hfit : s.m_autofit = false)
    (himg : img.empty = false) (hd : validDepth img) :
    ∃ r, DrawImg s img n = some r ∧ transferRects r.calls = [s.m_ctrlRectCv] := by
  obtain ⟨-, -, -, p4, -, -⟩ :=
    DrawImg_prepare_frame s img (8 * img.elemSize) (DrawImg_padding (8 * img.elemSize) img.cols)
  refine ⟨_, DrawImg_bound s img n hb himg hd, ?_⟩
  split_ifs
  · unfold DrawImg_direct
    split_ifs <;> simp [transferRects, p4]
  · unfold DrawImg_stretch
    split_ifs <;>
      simp [transferRects_chain, transferRects, DrawImg_chain_fst, DrawImg_rr_stretch, hfit]

/-- Witness of C2: the 640 x 480 image stretched over the 800 x 400 control. -/
theorem stretch_transfers_to_surface_witness :
    ∃ r, DrawImg stretch800x400 img640x480x32 1 = some r ∧
      transferRects r.calls = [stretch800x400.m_ctrlRectCv] :=
  stretch_transfers_to_surface stretch800x400 img640x480x32 1 (by decide) rfl rfl (by decide)

/-- C5: for a bound presenter, in either fit mode and whatever rectangle is
cached, and a non-empty image (depth 8, 24 or 32) whose working image has
exactly the width and height of the surface, `DrawImg` returns after a single
GDI call, the direct transfer `SetDIBitsToDevice` over the full surface
rectangle (so no background clear, no stretch mode, no scaled transfer); when
that transfer reports at least one line the call returns true and the cached
destination rectangle becomes the surface rectangle. -/
theorem fast_path (s : PkMatToGDI) (img : Mat) (n : Int)
    (hb : s.m_WinCtrl ≠ none) (himg : img.empty = false) (hd : validDepth img)
    (hsize : (DrawImg_tempimg img (DrawImg_padding (8 * img.elemSize) img.cols)).size
      = s.m_ctrlRectCv.size) :
    ∃ r, DrawImg s img n = some r ∧
      r.calls = [GdiCall.SetDIBitsToDevice s.m_ctrlRectCv.x s.m_ctrlRectCv.y
        s.m_ctrlRectCv.width s.m_ctrlRectCv.height 0 0 0
        (DrawImg_tempimg img (DrawImg_padding (8 * img.elemSize) img.cols)).rows
        ⟨(DrawImg_tempimg img (DrawImg_padding (8 * img.elemSize) img.cols)).cols,
          -((DrawImg_tempimg img (DrawImg_padding (8 * img.elemSize) img.cols)).rows : Int),
          8 * img.elemSize⟩] ∧
      (1 ≤ n → r.ret = true ∧ r.state.m_destRectCv = s.m_ctrlRectCv) := by
  obtain ⟨-, -, -, p4, -, -⟩ :=
    DrawImg_prepare_frame s img (8 * img.elemSize) (DrawImg_padding (8 * img.elemSize) img.cols)
  refine ⟨_, DrawImg_bound s img n hb himg hd, ?_⟩
  rw [if_pos hsize]
  unfold DrawImg_direct
  split_ifs with hn
  · exact ⟨by simp [p4], fun h => by omega⟩
  · exact ⟨by simp [p4], fun _ => ⟨rfl, by simp [p4]⟩⟩

/-- Witness of C5: the RGB image of 798 columns and 400 rows, padded to 800
columns, on the 800 x 400 control. -/
theorem fast_path_witness :
    ∃ r, DrawImg stretch800x400 img798x400x24 1 = some r ∧
      r.calls = [GdiCall.SetDIBitsToDevice stretch800x400.m_ctrlRectCv.x
        stretch800x400.m_ctrlRectCv.y stretch800x400.m_ctrlRectCv.width
        stretch800x400.m_ctrlRectCv.height 0 0 0
        (DrawImg_tempimg img798x400x24
          (DrawImg_padding (8 * img798x400x24.elemSize) img798x400x24.cols)).rows
        ⟨(DrawImg_tempimg img798x400x24
            (DrawImg_padding (8 * img798x400x24.elemSize) img798x400x24.cols)).cols,
          -((DrawImg_tempimg img798x400x24
            (DrawImg_padding (8 * img798x400x24.elemSize) img798x400x24.cols)).rows : Int),
          8 * img798x400x24.elemSize⟩] ∧
      ((1 : Int) ≤ 1 → r.ret = true ∧
        r.state.m_destRectCv = stretch800x400.m_ctrlRectCv) :=
  fast_path stretch800x400 img798x400x24 1 (by decide) rfl (by decide) (by decide)

/-- C6, as the code has it: for a bound presenter and a non-empty image (depth
8, 24 or 32) drawn through the scaled path, `DrawImg` clears the background
exactly when the cached destination rectangle has a positive width and the newly
computed rectangle differs from it, and the new rectangle is adopted.  The
first draw after binding is no exception: the bind caches the surface rectangle,
so that draw clears exactly when the surface has a positive width and the new
rectangle differs from the surface rectangle. -/
theorem background_clear_iff (s : PkMatToGDI) (img : Mat) (n : Int)
    (hb : s.m_WinCtrl ≠ none) (himg : img.empty = false) (hd : validDepth img)
    (hsize : (DrawImg_tempimg img (DrawImg_padding (8 * img.elemSize) img.cols)).size
      ≠ s.m_ctrlRectCv.size) :
    ∃ r, DrawImg s img n = some r ∧
      (BackgroundClear s ∈ r.calls ↔
        0 < s.m_destRectCv.width ∧ DrawImg_rr s img.cols img.rows ≠ s.m_destRectCv) ∧
      r.state.m_destRectCv = DrawImg_rr s img.cols img.rows ∧
      (∀ (s0 : PkMatToGDI) (c : CWnd) (autofit : Bool), s = (Init s0 (some c) autofit).2 →
        (BackgroundClear s ∈ r.calls ↔
          0 < s.m_ctrlRectCv.width ∧ DrawImg_rr s img.cols img.rows ≠ s.m_ctrlRectCv)) := by
  obtain ⟨-, -, p3, -, -, p6⟩ :=
    DrawImg_prepare_frame s img (8 * img.elemSize) (DrawImg_padding (8 * img.elemSize) img.cols)
  have key : ∀ r : DrawResult, r = DrawImg_stretch (DrawImg_prepare s img (8 * img.elemSize)
        (DrawImg_padding (8 * img.elemSize) img.cols)) (DrawImg_rr s img.cols img.rows)
        img.cols img.rows
        ⟨(DrawImg_tempimg img (DrawImg_padding (8 * img.elemSize) img.cols)).cols,
          -((DrawImg_tempimg img (DrawImg_padding (8 * img.elemSize) img.cols)).rows : Int),
          8 * img.elemSize⟩ n →
      (BackgroundClear s ∈ r.calls ↔
        0 < s.m_destRectCv.width ∧ DrawImg_rr s img.cols img.rows ≠ s.m_destRectCv) ∧
      r.state.m_destRectCv = DrawImg_rr s img.cols img.rows := by
    intro r hr
    subst hr
    have hclear : BackgroundClear (DrawImg_prepare s img (8 * img.elemSize)
        (DrawImg_padding (8 * img.elemSize) img.cols)) = BackgroundClear s := by
      unfold BackgroundClear
      rw [p3]
    have hc := DrawImg_chain_clear (DrawImg_prepare s img (8 * img.elemSize)
      (DrawImg_padding (8 * img.elemSize) img.cols)) (DrawImg_rr s img.cols img.rows) img.cols
    rw [hclear, p6] at hc
    unfold DrawImg_stretch
    split_ifs <;>
      exact ⟨by simpa [BackgroundClear] using hc, DrawImg_chain_fst _ _ _⟩
  refine ⟨_, DrawImg_bound s img n hb himg hd, ?_⟩
  rw [if_neg hsize]
  obtain ⟨k1, k2⟩ := key _ rfl
  refine ⟨k1, k2, ?_⟩
  intro s0 c autofit hs
  have hdest : s.m_destRectCv = s.m_ctrlRectCv := by
    rw [hs]
    rfl
  rw [← hdest]
  exact k1

/-- Witness of C6 as amended: the first draw of the 640 x 480 image on the
800 x 400 control in autofit mode goes through the scaled path. -/
theorem background_clear_iff_witness :
    ∃ r, DrawImg autofit800x400 img640x480x32 1 = some r ∧
      (BackgroundClear autofit800x400 ∈ r.calls ↔
        0 < autofit800x400.m_destRectCv.width ∧
        DrawImg_rr autofit800x400 img640x480x32.cols img640x480x32.rows
          ≠ autofit800x400.m_destRectCv) ∧
      r.state.m_destRectCv
        = DrawImg_rr autofit800x400 img640x480x32.cols img640x480x32.rows ∧
      (∀ (s0 : PkMatToGDI) (c : CWnd) (autofit : Bool),
        autofit800x400 = (Init s0 (some c) autofit).2 →
        (BackgroundClear autofit800x400 ∈ r.calls ↔
          0 < autofit800x400.m_ctrlRectCv.width ∧
          DrawImg_rr autofit800x400 img640x480x32.cols img640x480x32.rows
            ≠ autofit800x400.m_ctrlRectCv)) :=
  background_clear_iff autofit800x400 img640x480x32 1 (by decide) rfl (by decide) (by decide)

/-- C6 fails as stated, twice.  On the very first draw after binding (surface
800 x 400, autofit, image 640 x 480 at depth 32) the background is cleared
before (133, 0, 533, 400) is adopted.  And on a control 0 wide and 5 high the
new rectangle (0, 2, 0, 0) differs from the cached (0, 0, 0, 5), yet nothing
is cleared. -/
theorem background_clear_counterexample :
    (autofit800x400 = (Init unboundPresenter (some ctrl800x400) true).2 ∧
      ∃ r, DrawImg autofit800x400 img640x480x32 1 = some r ∧
        r.calls = [GdiCall.Rectangle 0 0 800 400,
          GdiCall.StretchDIBits 133 0 533 400 0 0 640 480 ⟨640, -480, 32⟩] ∧
        BackgroundClear autofit800x400 ∈ r.calls) ∧
    (∃ r, DrawImg autofit0x5 img640x480x32 1 = some r ∧
      autofit0x5.m_destRectCv = ⟨0, 0, 0, 5⟩ ∧
      r.state.m_destRectCv = ⟨0, 2, 0, 0⟩ ∧
      r.state.m_destRectCv ≠ autofit0x5.m_destRectCv ∧
      BackgroundClear autofit0x5 ∉ r.calls) := by
  refine ⟨⟨rfl, _, DrawImg_autofit800x400 1, rfl, ?_⟩, _, DrawImg_autofit0x5, rfl, rfl, ?_, ?_⟩
  · decide
  · decide
  · decide

/-- C7 fails on a draw whose destination rectangle changes: on the first draw
of the 640 x 480 image on the 800 x 400 control in autofit mode the scaled
transfer goes to a rectangle 533 wide, narrower than the 640 columns of the
source, and no stretch mode is selected: `SetStretchBltMode` is not called. -/
theorem stretch_mode_not_selected :
    ∃ r, DrawImg autofit800x400 img640x480x32 1 = some r ∧
      r.ret = true ∧
      transferRects r.calls = [⟨133, 0, 533, 400⟩] ∧
      (533 : Int) < img640x480x32.cols ∧
      ∀ mode, GdiCall.SetStretchBltMode mode ∉ r.calls := by
  refine ⟨_, DrawImg_autofit800x400 1, rfl, rfl, by decide, ?_⟩
  intro mode
  cases mode <;> decide

/-- C8 fails when the scaled transfer reports zero lines: on the first draw of
the 640 x 480 image on the 800 x 400 control in autofit mode, `DrawImg`
returns false and yet the cached destination rectangle has moved from
(0, 0, 800, 400) to (133, 0, 533, 400). -/
theorem failed_draw_moves_destRect :
    ∃ r, DrawImg autofit800x400 img640x480x32 0 = some r ∧
      r.ret = false ∧
      autofit800x400.m_destRectCv = ⟨0, 0, 800, 400⟩ ∧
      r.state.m_destRectCv = ⟨133, 0, 533, 400⟩ ∧
      r.state.m_destRectCv ≠ autofit800x400.m_destRectCv := by
  refine ⟨_, DrawImg_autofit800x400 0, rfl, rfl, rfl, ?_⟩
  decide

/-- C9 fails as stated: after `SetDestination(NULL, ...)` on the presenter bound
to the 800 x 400 control the bound control is gone, and the image that could be
drawn before the call is refused after it. -/
theorem null_bind_counterexample :
    autofit800x400.m_WinCtrl = some ctrl800x400 ∧
    (SetDestination autofit800x400 none true).1 = false ∧
    (SetDestination autofit800x400 none true).2.m_WinCtrl = none ∧
    (∃ r, DrawImg autofit800x400 img640x480x32 1 = some r ∧ r.ret = true) ∧
    (∃ r, DrawImg (SetDestination autofit800x400 none true).2 img640x480x32 1 = some r ∧
      r.ret = false ∧ r.calls = []) :=
  ⟨rfl, rfl, rfl, ⟨_, DrawImg_autofit800x400 1, rfl⟩,
    ⟨_, DrawImg_guard _ _ _ (Or.inl rfl), rfl, rfl⟩⟩

/-- C9, as the code has it: `SetDestination` with a null control, with or
without a fit-mode argument, returns false and leaves the fit mode, the surface
rectangle (in both forms), its ratio and the cached destination rectangle as
they were, but the bound control becomes null: the presenter is unbound, and
every later `DrawImg` returns false without a GDI call until a control is bound
again. -/
theorem null_bind (s : PkMatToGDI) (autofit : Bool) :
    SetDestination s none autofit = (false, { s with m_WinCtrl := none }) ∧
    SetDestinationCtrl s none = (false, { s with m_WinCtrl := none }) ∧
    (SetDestination s none autofit).2.m_autofit = s.m_autofit ∧
    (SetDestination s none autofit).2.m_ctrlRectWin = s.m_ctrlRectWin ∧
    (SetDestination s none autofit).2.m_ctrlRectCv = s.m_ctrlRectCv ∧
    (SetDestination s none autofit).2.m_ctrlRectRatio = s.m_ctrlRectRatio ∧
    (SetDestination s none autofit).2.m_destRectCv = s.m_destRectCv ∧
    (SetDestination s none autofit).2.m_WinCtrl = none ∧
    (∀ (img : Mat) (n : Int),
      DrawImg (SetDestination s none autofit).2 img n
        = some ⟨false, (SetDestination s none autofit).2, []⟩) :=
  ⟨rfl, rfl, rfl, rfl, rfl, rfl, rfl, rfl, fun _ _ => DrawImg_guard _ _ _ (Or.inl rfl)⟩

/-- C10 fails when the column count is a multiple of 4 at depth 8 or 24: for the
640 x 480 RGB image on the 640 x 480 control, `CvMatToWinControl` computes a
border of 4 columns (working width 644) and calls `StretchDIBits`, while the
first `DrawImg` of a presenter freshly bound in stretch mode computes a padding
of 0 (working width 640) and calls `SetDIBitsToDevice`. -/
theorem free_function_differs :
    CvMatToWinControl_border (8 * img640x480x24.elemSize) img640x480x24.cols = 4 ∧
    DrawImg_padding (8 * img640x480x24.elemSize) img640x480x24.cols = 0 ∧
    (4 - ((img640x480x24.cols % 4 : Nat) : Int)) % 4 = 0 ∧
    CvMatToWinControl img640x480x24 (some ctrl640x480)
      = some [GdiCall.StretchDIBits 0 0 640 480 0 0 640 480 ⟨644, -480, 24⟩] ∧
    (∃ r, DrawImg stretch640x480 img640x480x24 1 = some r ∧
      r.calls = [GdiCall.SetDIBitsToDevice 0 0 640 480 0 0 0 480 ⟨640, -480, 24⟩]) := by
  refine ⟨by decide, by decide, by decide, by decide, _, DrawImg_stretch640x480, rfl⟩

end PkMat
